import Mathlib

/-!
Shallow embedding of the `lumi` ledger checker
(`src/parse/checker.rs`, together with `AccountInfoDraft::merge` from
`src/parse/parser.rs` and the surrounding data model of `src/ledger.rs`),
and proofs about it.

Modelling conventions:
* `rust_decimal::Decimal` is modelled as `Rat`.  The specification states
  that decimal arithmetic is exact for ledger values, so the exact
  rational model is faithful on the values of interest.
  `Decimal::is_sign_negative` is modelled as `d < 0` and
  `Decimal::is_sign_positive` as `0 ≤ d` (ignoring the negative-zero
  representation, which the checker never constructs).
* `chrono::NaiveDate` is modelled as `Nat` (only ordering is used).
* `HashMap` values are modelled as association lists whose iteration
  order is the insertion order; `HashSet` values as lists.
* Rust panics (division by zero, `unwrap()` of a missing entry,
  out-of-bounds indexing) are modelled by returning `Option.none`, so
  the embedded `into_ledger` has type `LedgerDraft → Option (Ledger × List Error)`:
  `none` corresponds to a run of the Rust code that does not return.
* `Arc<String>` account names, `SrcFile` and `Source` spans are modelled
  as plain `String`s (spans only flow into error values).
-/

/-- Association-list lookup, modelling `HashMap::get`. -/
def alookup {α β : Type} [DecidableEq α] (m : List (α × β)) (k : α) : Option β :=
  match m with
  | [] => none
  | (k1, v) :: rest => if k1 = k then some v else alookup rest k

/-- Association-list update, modelling `*map.entry(k).or_insert(d)` followed by
an in-place modification `f` of the entry; a missing key is appended. -/
def aupd {α β : Type} [DecidableEq α] (m : List (α × β)) (k : α) (d : β) (f : β → β) :
    List (α × β) :=
  match m with
  | [] => [(k, f d)]
  | (k1, v) :: rest => if k1 = k then (k1, f v) :: rest else (k1, v) :: aupd rest k d f

/-- Association-list insertion, modelling `HashMap::insert` (replace or append). -/
def ainsert {α β : Type} [DecidableEq α] (m : List (α × β)) (k : α) (v : β) :
    List (α × β) :=
  match m with
  | [] => [(k, v)]
  | (k1, v1) :: rest => if k1 = k then (k1, v) :: rest else (k1, v1) :: ainsert rest k v

/-- Association-list removal, modelling `HashMap::remove`. -/
def aremove {α β : Type} [DecidableEq α] (m : List (α × β)) (k : α) : List (α × β) :=
  match m with
  | [] => []
  | (k1, v) :: rest => if k1 = k then rest else (k1, v) :: aremove rest k

/-- Set insertion, modelling `HashSet::insert`: returns the new set together
with `true` iff the element was not present before. -/
def sinsert {α : Type} [DecidableEq α] (s : List α) (a : α) : List α × Bool :=
  if a ∈ s then (s, false) else (s ++ [a], true)

/-- The exact decimal number type (`rust_decimal::Decimal`), modelled as `Rat`. -/
abbrev Decimal := Rat

/-- Decimal addition.  The arithmetic of the embedding is written with
these kernel-computable wrappers (`Mathlib`'s `Rat.add` etc. are
irreducible); `dAdd_eq` below identifies them with the standard
operations. -/
def dAdd (a b : Decimal) : Decimal :=
  mkRat (a.num * b.den + b.num * a.den) (a.den * b.den)

/-- Decimal negation. -/
def dNeg (a : Decimal) : Decimal := mkRat (-a.num) a.den

/-- Decimal subtraction. -/
def dSub (a b : Decimal) : Decimal := dAdd a (dNeg b)

/-- Decimal multiplication. -/
def dMul (a b : Decimal) : Decimal := mkRat (a.num * b.num) (a.den * b.den)

/-- Decimal division (`x / 0 = 0`, as for `Rat`; the Rust division panic
on a zero divisor is handled by explicit guards at the call sites). -/
def dDiv (a b : Decimal) : Decimal :=
  mkRat (a.num * b.den * (if b.num < 0 then -1 else 1)) (a.den * b.num.natAbs)

/-- Decimal absolute value (`Decimal::abs`). -/
def dAbs (a : Decimal) : Decimal := if a.num < 0 then dNeg a else a

/-- Sum of a list of decimals (`Iterator::sum`). -/
def dSum (l : List Decimal) : Decimal := l.foldr dAdd 0

/-- Calendar date (`chrono::NaiveDate`); only its total order matters. -/
abbrev Date := Nat

/-- Currency name (`type Currency = String`). -/
abbrev Currency := String

/-- Account name (`type Account = Arc<String>`). -/
abbrev Account := String

/-- Source span (`struct Source`), collapsed to an opaque string. -/
abbrev Source := String

/-- Metadata map (`type Meta = HashMap<String, (String, Source)>`). -/
abbrev Meta := List (String × (String × Source))

/-- A decimal number plus its currency (`struct Amount`). -/
structure Amount where
  number : Decimal
  currency : Currency
deriving DecidableEq, Repr

/-- Display of an `Amount`, `"{number} {currency}"`. -/
def amountToString (a : Amount) : String :=
  toString a.number ++ " " ++ a.currency

/-- The unit price (`@`) or total price (`@@`) attached to a posting
(`enum Price`). -/
inductive Price where
  | Unit (amount : Amount)
  | Total (amount : Amount)
deriving DecidableEq, Repr

/-- Cost basis and acquisition date identifying a position
(`struct UnitCost`). -/
structure UnitCost where
  amount : Amount
  date : Date
deriving DecidableEq, Repr

/-- Display of a `UnitCost`, `"{ {amount}, {date} }"`. -/
def unitCostToString (u : UnitCost) : String :=
  "\x7b " ++ amountToString u.amount ++ ", " ++ toString u.date ++ " \x7d"

/-- Transaction flag (`enum TxnFlag`), in Rust declaration order
`Pending < Posted < Pad < Balance`. -/
inductive TxnFlag where
  | Pending
  | Posted
  | Pad
  | Balance
deriving DecidableEq, Repr

/-- Discriminant of a `TxnFlag` (`flag as u8`). -/
def TxnFlag.toU8 : TxnFlag → Nat
  | .Pending => 0
  | .Posted => 1
  | .Pad => 2
  | .Balance => 3

/-- Error kinds (`enum ErrorType`). -/
inductive ErrorType where
  | Io
  | Syntax
  | NotBalanced
  | Incomplete
  | Account
  | NoMatch
  | Ambiguous
  | Duplicate
deriving DecidableEq, Repr

/-- Error levels (`enum ErrorLevel`). -/
inductive ErrorLevel where
  | Info
  | Warning
  | Error
deriving DecidableEq, Repr

/-- A structured error (`struct Error`); the Rust field `r#type` is named
`etype` here. -/
structure Error where
  msg : String
  src : Source
  etype : ErrorType
  level : ErrorLevel
deriving DecidableEq, Repr

/-- A validated posting (`struct Posting`). -/
structure Posting where
  account : Account
  amount : Amount
  cost : Option UnitCost
  price : Option Price
  meta : Meta
  src : Source
deriving DecidableEq, Repr

/-- A validated transaction (`struct Transaction`). -/
structure Transaction where
  date : Date
  flag : TxnFlag
  payee : String
  narration : String
  links : List String
  tags : List String
  meta : Meta
  postings : List Posting
  src : Source
deriving DecidableEq, Repr

/-- A note or document attached to an account (`struct AccountNote`,
`type AccountDoc = AccountNote`). -/
structure AccountNote where
  date : Date
  val : String
  src : Source
deriving DecidableEq, Repr

/-- Validated account information (`struct AccountInfo`). -/
structure AccountInfo where
  open_ : Date × Source
  close : Option (Date × Source)
  currencies : List Currency
  notes : List AccountNote
  docs : List AccountNote
  meta : Meta
deriving DecidableEq, Repr

/-- An `event` directive payload (`struct EventInfo`). -/
structure EventInfo where
  date : Date
  desc : String
  src : Source
deriving DecidableEq, Repr

/-- Per-account running balances
(`type BalanceSheet = HashMap<Account, HashMap<Currency, HashMap<Option<UnitCost>, Decimal>>>`). -/
abbrev BalanceSheet := List (Account × List (Currency × List (Option UnitCost × Decimal)))

/-- The validated ledger (`struct Ledger`). -/
structure Ledger where
  accounts : List (Account × AccountInfo)
  commodities : List (Currency × (Meta × Source))
  txns : List Transaction
  options : List (String × (String × Source))
  events : List (String × List EventInfo)
  balance_sheet : BalanceSheet
deriving Repr

/-- Cost basis of a cost literal (`enum CostBasis` in `parser.rs`). -/
inductive CostBasis where
  | Total (amount : Amount)
  | Unit (amount : Amount)
deriving DecidableEq, Repr

/-- The currency of a cost basis (`CostBasis::currency`). -/
def CostBasis.currency : CostBasis → Currency
  | .Total a => a.currency
  | .Unit a => a.currency

/-- Conversion of a cost basis to a unit cost (`CostBasis::to_unit_cost`);
a `Total` basis divides by `p_number.abs()`, which in Rust panics when
`p_number` is zero, modelled by `none`. -/
def CostBasis.to_unit_cost : CostBasis → Decimal → Option Amount
  | .Total a, p_number =>
      if p_number = 0 then none
      else some { number := dDiv a.number (dAbs p_number), currency := a.currency }
  | .Unit a, _ => some a

/-- An unresolved cost annotation (`struct CostLiteral`). -/
structure CostLiteral where
  date : Option Date
  basis : Option CostBasis
deriving DecidableEq, Repr

/-- Display of a `CostLiteral` (the `fmt::Display` impl in `parser.rs`). -/
def costLiteralToString (c : CostLiteral) : String :=
  let dateStr0 := match c.date with
    | none => ""
    | some d => toString d
  match c.basis with
  | some (CostBasis.Total t) =>
      let dateStr := if c.date.isSome then ", " ++ dateStr0 else dateStr0
      "\x7b\x7b " ++ amountToString t ++ dateStr ++ " \x7d\x7d"
  | some (CostBasis.Unit u) =>
      let dateStr := if c.date.isSome then ", " ++ dateStr0 else dateStr0
      "\x7b " ++ amountToString u ++ dateStr ++ " \x7d"
  | none => "\x7b " ++ dateStr0 ++ " \x7d"

/-- An unchecked posting (`struct PostingDraft`). -/
structure PostingDraft where
  account : Account
  amount : Option Amount
  cost : Option CostLiteral
  price : Option Price
  meta : Meta
  src : Source
deriving DecidableEq, Repr

/-- An unchecked transaction (`struct TxnDraft`). -/
structure TxnDraft where
  date : Date
  flag : TxnFlag
  payee : String
  narration : String
  links : List String
  tags : List String
  meta : Meta
  postings : List PostingDraft
  src : Source
deriving DecidableEq, Repr

/-- Unchecked account information (`struct AccountInfoDraft`). -/
structure AccountInfoDraft where
  open_ : Option (Date × Source)
  close : Option (Date × Source)
  currencies : List Currency
  notes : List AccountNote
  docs : List AccountNote
  meta : Meta
deriving DecidableEq, Repr

/-- The unchecked ledger produced by the parser (`struct LedgerDraft`). -/
structure LedgerDraft where
  accounts : List (Account × AccountInfoDraft)
  commodities : List (Currency × (Meta × Source))
  txns : List TxnDraft
  options : List (String × (String × Source))
  events : List (String × List EventInfo)
deriving Repr

/-- Check whether a unit cost matches a partially specified cost key
(`UnitCost::matches`). -/
def UnitCost.matches (uc : UnitCost) (unit_cost_amount : Option Amount)
    (date : Option Date) : Bool :=
  (match unit_cost_amount with
   | none => true
   | some amount => amount = uc.amount) &&
  (match date with
   | none => true
   | some d => d = uc.date)

/-- Filter notes or docs of an account against its open and close dates
(the `filter_note_doc!` macro); returns the kept items and the emitted
errors. -/
def filter_note_doc (items : List AccountNote) (open_date : Date)
    (valid_close : Option (Date × Source)) : List AccountNote × List Error :=
  match items with
  | [] => ([], [])
  | item :: rest =>
    let r := filter_note_doc rest open_date valid_close
    if item.date < open_date then
      (r.1, { msg := "Reference to a not-yet-opened account.", src := item.src,
              etype := .Account, level := .Error } :: r.2)
    else
      match valid_close with
      | some (close_date, _) =>
        if close_date < item.date then
          (r.1, { msg := "Reference to a closed account.", src := item.src,
                  etype := .Account, level := .Error } :: r.2)
        else (item :: r.1, r.2)
      | none => (item :: r.1, r.2)

/-- Validate the account drafts (`check_accounts`); returns the valid
accounts map and the emitted errors. -/
def check_accounts (accounts : List (Account × AccountInfoDraft)) :
    List (Account × AccountInfo) × List Error :=
  match accounts with
  | [] => ([], [])
  | (account, info_draft) :: rest =>
    let r := check_accounts rest
    match info_draft.open_ with
    | some (open_date, open_src) =>
      let closePair : Option (Date × Source) × List Error :=
        match info_draft.close with
        | some (close_date, close_src) =>
          if close_date < open_date then
            (none, [{ msg := account ++ " closed before being opened.",
                      src := close_src, etype := .Account, level := .Error }])
          else (some (close_date, close_src), [])
        | none => (none, [])
      let valid_close := closePair.1
      let notesPair := filter_note_doc info_draft.notes open_date valid_close
      let docsPair := filter_note_doc info_draft.docs open_date valid_close
      let valid_info : AccountInfo :=
        { open_ := (open_date, open_src), close := valid_close,
          currencies := info_draft.currencies, notes := notesPair.1,
          docs := docsPair.1, meta := info_draft.meta }
      ((account, valid_info) :: r.1, closePair.2 ++ notesPair.2 ++ docsPair.2 ++ r.2)
    | none =>
      let msg := "Reference to an unknown account " ++ account ++ "."
      let noteErrs := info_draft.notes.map (fun note =>
        ({ msg := msg, src := note.src, etype := .Account, level := .Error } : Error))
      let docErrs := info_draft.docs.map (fun doc =>
        ({ msg := msg, src := doc.src, etype := .Account, level := .Error } : Error))
      let closeErrs : List Error :=
        match info_draft.close with
        | some (_, close_src) =>
          [{ msg := msg, src := close_src, etype := .Account, level := .Error }]
        | none => []
      (r.1, noteErrs ++ docErrs ++ closeErrs ++ r.2)

/-- Validate one posting against the valid accounts (`check_posting`). -/
def check_posting (posting : PostingDraft) (txn_date : Date)
    (accounts : List (Account × AccountInfo)) : Except String Unit :=
  match alookup accounts posting.account with
  | some info =>
    if txn_date < info.open_.1 then
      .error (posting.account ++ " unopened as of " ++ toString txn_date ++ ".")
    else
      let closeCheck : Except String Unit :=
        match info.close with
        | some (close_date, _) =>
          if close_date < txn_date then
            .error (posting.account ++ " closed as of " ++ toString txn_date ++ ".")
          else .ok ()
        | none => .ok ()
      match closeCheck with
      | .error e => .error e
      | .ok _ =>
        match posting.amount with
        | some amount =>
          if info.currencies.length > 0 ∧ amount.currency ∉ info.currencies then
            .error (amount.currency ++ " not in the allowed currency set of " ++
              posting.account ++ ": " ++ toString info.currencies ++ ".")
          else .ok ()
        | none => .ok ()
  | none => .error ("Reference to unknown account " ++ posting.account ++ ".")

/-- Loop body of `is_opening_new`: inspect lot entries in iteration order;
the first lot-keyed entry decides the answer. -/
def isOpeningLoop (p_number : Decimal) : List (Option UnitCost × Decimal) → Bool
  | [] => true
  | (cost, number) :: rest =>
    if cost.isNone then isOpeningLoop p_number rest
    else if (number < 0 ∧ 0 ≤ p_number) ∨ (0 ≤ number ∧ p_number < 0) then false
    else true

/-- Decide whether a posting with a cost opens a new position
(`is_opening_new`). -/
def is_opening_new (p_number : Decimal)
    (running_balance : Option (List (Option UnitCost × Decimal))) : Bool :=
  match running_balance with
  | some rb => isOpeningLoop p_number rb
  | none => true

/-- The result of processing one posting (`enum PostResult`). -/
inductive PostResult where
  | Success (posting : Posting)
  | Expanded (postings : List Posting)
  | NeedInfer (posting : PostingDraft)
  | Fail
  | None
deriving Repr

/-- Total quantity held across the lot-keyed entries of one
(account, currency) slot (the `total_holding` sum in `close_position`). -/
def lotsTotal (holding : List (Option UnitCost × Decimal)) : Decimal :=
  dSum (holding.map (fun e => if e.1.isSome then e.2 else 0))

/-- Expansion loop of `close_position` in the `(None, None)` case: one
synthetic posting per lot-keyed entry, updating the pending change and
the per-currency change. -/
def expand_lots (account : Account) (p_currency : Currency) (meta : Meta)
    (src : Source) :
    List (Option UnitCost × Decimal) →
    List (Option UnitCost × Decimal) → List (Currency × Decimal) →
    List (Option UnitCost × Decimal) × List (Currency × Decimal) × List Posting
  | [], pending, per => (pending, per, [])
  | (cost, holding_number) :: rest, pending, per =>
    match cost with
    | some unit_cost =>
      let per2 := aupd per unit_cost.amount.currency 0
        (fun x => dSub x (dMul unit_cost.amount.number holding_number))
      let pending2 := aupd pending (some unit_cost) 0 (fun x => dSub x holding_number)
      let p : Posting :=
        { account := account,
          amount := { number := dNeg holding_number, currency := p_currency },
          cost := some unit_cost, price := none, meta := meta, src := src }
      let r := expand_lots account p_currency meta src rest pending2 per2
      (r.1, r.2.1, p :: r.2.2)
    | none => expand_lots account p_currency meta src rest pending per

/-- Process a posting that reduces an existing position (`close_position`).
Returns the post result, the updated pending change for this
(account, currency), the updated per-currency change, and the emitted
errors; `Option.none` models a Rust panic. -/
def close_position (posting : PostingDraft)
    (running_balance : Option (List (Option UnitCost × Decimal)))
    (pending_change : List (Option UnitCost × Decimal))
    (per_currency_change : List (Currency × Decimal)) :
    Option (PostResult × List (Option UnitCost × Decimal) ×
      List (Currency × Decimal) × List Error) :=
  match posting.cost, posting.amount with
  | some cost_literal, some p_amount =>
    match cost_literal.basis, cost_literal.date with
    | none, none =>
      match running_balance with
      | some holding_balance =>
        let total_holding : Decimal := lotsTotal holding_balance
        if dAdd total_holding p_amount.number = 0 then
          let r := expand_lots posting.account p_amount.currency posting.meta
            posting.src holding_balance pending_change per_currency_change
          some (.Expanded r.2.2, r.1, r.2.1, [])
        else
          some (.Fail, pending_change, per_currency_change,
            [{ etype := .NoMatch, level := .Error,
               msg := "Account only has " ++ toString total_holding ++ " " ++
                 p_amount.currency ++ ".",
               src := posting.src }])
      | none =>
        if p_amount.number ≠ 0 then
          some (.Fail, pending_change, per_currency_change,
            [{ etype := .NoMatch, level := .Error,
               msg := "Account has no " ++ p_amount.currency ++ ".",
               src := posting.src }])
        else
          some (.None, pending_change, per_currency_change, [])
    | some basis, some date =>
      match basis.to_unit_cost p_amount.number with
      | none => none
      | some unit_cost_amount =>
        let unit_cost_number := unit_cost_amount.number
        let unit_cost : UnitCost := { amount := unit_cost_amount, date := date }
        let holding_number : Decimal :=
          ((running_balance.bind (fun m => alookup m (some unit_cost))).getD 0)
        if dAbs holding_number < dAbs p_amount.number then
          some (.Fail, pending_change, per_currency_change,
            [{ etype := .NoMatch, level := .Error,
               msg := "Account only has " ++ toString holding_number ++ " " ++
                 p_amount.currency ++ " " ++ unitCostToString unit_cost ++ ".",
               src := posting.src }])
        else
          let per2 := aupd per_currency_change basis.currency 0
            (fun x => dAdd x (dMul unit_cost_number p_amount.number))
          let pending2 := aupd pending_change (some unit_cost) 0
            (fun x => dAdd x p_amount.number)
          let valid_posting : Posting :=
            { account := posting.account, amount := p_amount,
              cost := some unit_cost, price := posting.price,
              meta := posting.meta, src := posting.src }
          some (.Success valid_posting, pending2, per2, [])
    | _, _ =>
      let unit_cost_amountM : Option (Option Amount) :=
        match cost_literal.basis with
        | none => some none
        | some basis => (basis.to_unit_cost p_amount.number).map some
      match unit_cost_amountM with
      | none => none
      | some unit_cost_amount =>
        let candidates : List (Option UnitCost × Decimal) :=
          match running_balance with
          | none => []
          | some m => m.filter (fun e =>
              match e.1 with
              | some unit_cost => unit_cost.matches unit_cost_amount cost_literal.date
              | none => false)
        match candidates with
        | [] =>
          some (.Fail, pending_change, per_currency_change,
            [{ etype := .NoMatch, level := .Error,
               msg := "Account has no positions with cost " ++
                 costLiteralToString cost_literal ++ ".",
               src := posting.src }])
        | [(maybe_unit_cost, holding_number)] =>
          match maybe_unit_cost with
          | none => none
          | some unit_cost =>
            if dAbs holding_number < dAbs p_amount.number then
              some (.Fail, pending_change, per_currency_change,
                [{ etype := .NoMatch, level := .Error,
                   msg := "Account only has " ++ toString holding_number ++ " " ++
                     p_amount.currency ++ " " ++ unitCostToString unit_cost ++ ".",
                   src := posting.src }])
            else
              let per2 := aupd per_currency_change unit_cost.amount.currency 0
                (fun x => dAdd x (dMul unit_cost.amount.number p_amount.number))
              let pending2 := aupd pending_change (some unit_cost) 0
                (fun x => dAdd x p_amount.number)
              let valid_posting : Posting :=
                { account := posting.account, amount := p_amount,
                  cost := some unit_cost, price := posting.price,
                  meta := posting.meta, src := posting.src }
              some (.Success valid_posting, pending2, per2, [])
        | _ =>
          some (.Fail, pending_change, per_currency_change,
            [{ etype := .NoMatch, level := .Error,
               msg := "Account has multiple positions with cost " ++
                 costLiteralToString cost_literal ++ ".",
               src := posting.src }])
  | _, _ => none

/-- Process a posting that opens a new position (`open_new_position`);
`Option.none` models the Rust division-by-zero panic for a `Total` basis
with a zero posting number, and the `unwrap()`s of the caller-guaranteed
cost and amount. -/
def open_new_position (posting : PostingDraft) (txn_date : Date)
    (pending_change : List (Option UnitCost × Decimal))
    (per_currency_change : List (Currency × Decimal)) :
    Option (PostResult × List (Option UnitCost × Decimal) ×
      List (Currency × Decimal)) :=
  match posting.cost with
  | some cost_literal =>
    match cost_literal.basis with
    | some cost_basis =>
      match posting.amount with
      | some p_amount =>
        match cost_basis with
        | .Total total_amount =>
          if p_amount.number = 0 then none
          else
            let per2 := aupd per_currency_change total_amount.currency 0
              (fun x => dAdd x total_amount.number)
            let unit_cost : UnitCost :=
              { amount := { number := dDiv total_amount.number p_amount.number,
                            currency := total_amount.currency },
                date := cost_literal.date.getD txn_date }
            let pending2 := aupd pending_change (some unit_cost) 0
              (fun x => dAdd x p_amount.number)
            some (.Success
              { account := posting.account, amount := p_amount,
                cost := some unit_cost, price := posting.price,
                meta := posting.meta, src := posting.src }, pending2, per2)
        | .Unit unit_amount =>
          let per2 := aupd per_currency_change unit_amount.currency 0
            (fun x => dAdd x (dMul unit_amount.number p_amount.number))
          let unit_cost : UnitCost :=
            { amount := unit_amount, date := cost_literal.date.getD txn_date }
          let pending2 := aupd pending_change (some unit_cost) 0
            (fun x => dAdd x p_amount.number)
          some (.Success
            { account := posting.account, amount := p_amount,
              cost := some unit_cost, price := posting.price,
              meta := posting.meta, src := posting.src }, pending2, per2)
      | none => none
    | none => some (.NeedInfer posting, pending_change, per_currency_change)
  | none => none

/-- Write the pending change of one (account, currency) slot back into the
balance-change sheet, creating the nested entries as
`entry().or_insert()` does. -/
def bcSet (bc : BalanceSheet) (a : Account) (c : Currency)
    (v : List (Option UnitCost × Decimal)) : BalanceSheet :=
  aupd bc a [] (fun inner => aupd inner c [] (fun _ => v))

/-- Process one posting of a `Pending`/`Posted` transaction
(`posting_flow`). -/
def posting_flow (posting : PostingDraft) (txn_date : Date)
    (running_balance : BalanceSheet) (balance_change : BalanceSheet)
    (per_currency_change : List (Currency × Decimal)) :
    Option (PostResult × BalanceSheet × List (Currency × Decimal) × List Error) :=
  match posting.amount with
  | none => some (.NeedInfer posting, balance_change, per_currency_change, [])
  | some p_amount =>
    let rb : Option (List (Option UnitCost × Decimal)) :=
      (alookup running_balance posting.account).bind
        (fun m => alookup m p_amount.currency)
    let pending : List (Option UnitCost × Decimal) :=
      (((alookup balance_change posting.account).getD []) |>
        (fun inner => (alookup inner p_amount.currency).getD []))
    match posting.cost with
    | some _ =>
      if is_opening_new p_amount.number rb then
        (open_new_position posting txn_date pending per_currency_change).map
          (fun r => (r.1, bcSet balance_change posting.account p_amount.currency r.2.1,
                     r.2.2, []))
      else
        (close_position posting rb pending per_currency_change).map
          (fun r => (r.1, bcSet balance_change posting.account p_amount.currency r.2.1,
                     r.2.2.1, r.2.2.2))
    | none =>
      let priced : Decimal × Currency :=
        match posting.price with
        | none => (p_amount.number, p_amount.currency)
        | some (.Total total_amount) =>
          if p_amount.number < 0 then (dNeg total_amount.number, total_amount.currency)
          else (total_amount.number, total_amount.currency)
        | some (.Unit unit_price) =>
          (dMul p_amount.number unit_price.number, unit_price.currency)
      let per2 := aupd per_currency_change priced.2 0 (fun x => dAdd x priced.1)
      let pending2 := aupd pending none 0 (fun x => dAdd x p_amount.number)
      some (.Success
        { account := posting.account, amount := p_amount, cost := none,
          price := posting.price, meta := posting.meta, src := posting.src },
        bcSet balance_change posting.account p_amount.currency pending2, per2, [])

/-- Loop of `complete_posting` for an inferred posting without amount:
one valid posting per unbalanced currency, updating the account's pending
change under lot key `none`. -/
def infer_postings (account : Account) (meta : Meta) (src : Source) :
    List (Currency × Decimal) →
    List (Currency × List (Option UnitCost × Decimal)) →
    List Posting × List (Currency × List (Option UnitCost × Decimal))
  | [], pending => ([], pending)
  | (currency, number) :: rest, pending =>
    let p : Posting :=
      { account := account, amount := { number := dNeg number, currency := currency },
        cost := none, price := none, meta := meta, src := src }
    let pending2 := aupd pending currency []
      (fun inner => aupd inner none 0 (fun x => dSub x number))
    let r := infer_postings account meta src rest pending2
    (p :: r.1, r.2)

/-- Complete the at-most-one incomplete posting from the unbalanced
currencies (`complete_posting`).  Returns `Except.error` for the Rust
`Err(error)` cases; the outer `Option.none` models the division-by-zero
panic and the `unreachable!()` arm. -/
def complete_posting (incomplete : Option PostingDraft)
    (not_balanced : List (Currency × Decimal)) (txn_date : Date)
    (txn_src : Source) (valid_postings : List Posting)
    (balance_change : BalanceSheet) :
    Option (Except Error (List Posting × BalanceSheet)) :=
  let not_balanced_list :=
    String.intercalate ", "
      (not_balanced.map (fun e => toString e.2 ++ " " ++ e.1))
  match incomplete with
  | some pd =>
    let accPending : List (Currency × List (Option UnitCost × Decimal)) :=
      (alookup balance_change pd.account).getD []
    match pd.amount, pd.cost with
    | none, _ =>
      let r := infer_postings pd.account pd.meta pd.src not_balanced accPending
      some (.ok (valid_postings ++ r.1,
        aupd balance_change pd.account [] (fun _ => r.2)))
    | some amount, some cost_literal =>
      match not_balanced with
      | [(currency, number)] =>
        if amount.number = 0 then none
        else
          let cost_date := cost_literal.date.getD txn_date
          let unit_cost : UnitCost :=
            { amount := { number := dDiv (dNeg number) amount.number,
                          currency := currency },
              date := cost_date }
          let accPending2 := aupd accPending amount.currency []
            (fun inner => aupd inner (some unit_cost) 0 (fun x => dAdd x amount.number))
          let valid_posting : Posting :=
            { account := pd.account, amount := amount, cost := some unit_cost,
              price := pd.price, meta := pd.meta, src := pd.src }
          some (.ok (valid_postings ++ [valid_posting],
            aupd balance_change pd.account [] (fun _ => accPending2)))
      | _ =>
        some (.error
          { msg := "Cannot calculate the cost from multiple unbalanced currencies: " ++
              not_balanced_list,
            src := pd.src, etype := .Incomplete, level := .Error })
    | some _, none => none
  | none =>
    if not_balanced.length > 0 then
      some (.error
        { msg := "Transaction not balanced: " ++ not_balanced_list,
          etype := .NotBalanced, level := .Error, src := txn_src })
    else
      some (.ok (valid_postings, balance_change))

/-- The default key of the tolerance table (`TOLERANCE_KEY_DEFAULT`). -/
def TOLERANCE_KEY_DEFAULT : String := ";"

/-- Parse a decimal number from a string: sign, digits with `_`
separators, at most one decimal point.  This models
`rust_decimal::Decimal::from_str` for in-range inputs (the 28-digit
overflow error is not modelled, matching the exact-arithmetic model). -/
def scanDec : List Char → Bool → Nat → Nat → Nat → Option (Nat × Nat × Nat)
  | [], _, m, s, d => some (m, s, d)
  | c :: rest, seenDot, m, s, d =>
    if c = '_' then scanDec rest seenDot m s d
    else if c = '.' then (if seenDot then none else scanDec rest true m s d)
    else if c.isDigit then
      scanDec rest seenDot (10 * m + (c.toNat - 48)) (if seenDot then s + 1 else s)
        (d + 1)
    else none

/-- Parse a decimal string to a rational (`str::parse::<Decimal>()`). -/
def parseDecimalString (s : String) : Option Decimal :=
  let withSign : Bool × List Char :=
    match s.toList with
    | '-' :: rest => (true, rest)
    | '+' :: rest => (false, rest)
    | cs => (false, cs)
  match scanDec withSign.2 false 0 0 0 with
  | some (m, scale, d) =>
    if d = 0 then none
    else some (mkRat (if withSign.1 then -(m : Int) else (m : Int)) (10 ^ scale))
  | none => none

/-- Parse a decimal or report a syntax error (`utils::parse_decimal` as
used by the checker, returning `Result<Decimal, Error>`). -/
def parse_decimal (num_str : String) (src : Source) : Except Error Decimal :=
  match parseDecimalString num_str with
  | some num => .ok num
  | none =>
    .error { msg := "Invalid number.", src := src, etype := .Syntax, level := .Error }

/-- Modelled from the spec: option key `default_tolerance`.  The constant
`OPTION_DEFAULT_TOLERANCE` lives in the crate's `options` module, which is
not among the provided sources; the spec names the option
`default_tolerance`. -/
def OPTION_DEFAULT_TOLERANCE : String := "default_tolerance"

/-- Modelled from the spec: option key `balance_at_day_end`
(`OPTION_BALANCE_AT_DAY_END` from the missing `options` module). -/
def OPTION_BALANCE_AT_DAY_END : String := "balance_at_day_end"

/-- Commodity loop of `extract_tolerance`: per-commodity `tolerance`
metadata, parsed and inserted as its absolute value. -/
def extract_tolerance_loop :
    List (Currency × (Meta × Source)) → List (String × Decimal) × List Error
  | [] => ([], [])
  | (currency, (meta, _)) :: rest =>
    let r := extract_tolerance_loop rest
    match alookup meta "tolerance" with
    | some (num_str, src) =>
      match parse_decimal num_str src with
      | .ok num => (ainsert r.1 currency (dAbs num), r.2)
      | .error err => (r.1, err :: r.2)
    | none => r

/-- Build the tolerance table (`extract_tolerance`): per-commodity
`tolerance` metadata, then the default key from option
`default_tolerance`, else `Decimal::new(6, 3) = 0.006`. -/
def extract_tolerance (commodities : List (Currency × (Meta × Source)))
    (options : List (String × (String × Source))) :
    List (String × Decimal) × List Error :=
  let r := extract_tolerance_loop commodities
  match alookup options OPTION_DEFAULT_TOLERANCE with
  | some (num_str, src) =>
    match parse_decimal num_str src with
    | .ok num => (ainsert r.1 TOLERANCE_KEY_DEFAULT (dAbs num), r.2)
    | .error err => (r.1, r.2 ++ [err])
  | none =>
    (ainsert r.1 TOLERANCE_KEY_DEFAULT (mkRat 6 1000), r.2)

/-- Tolerance comparison (`equal_within`): equal, or apart by strictly
less than the applicable tolerance.  The inner `.getD 0` renders the Rust
`.unwrap()` (which panics when the default key is absent) as tolerance 0. -/
def equal_within (lhs rhs : Decimal) (currency : String)
    (tolerances : List (String × Decimal)) : Bool :=
  if lhs = rhs then true
  else
    let tolerance :=
      (alookup tolerances currency).getD
        ((alookup tolerances TOLERANCE_KEY_DEFAULT).getD 0)
    decide (dAbs (dSub lhs rhs) < tolerance)

/-- Loop body of `check_complete_txn` over the postings, with early return
on failure (`struct CCTLoop` summarises the loop outcome). -/
inductive CCTLoop where
  | dropped (errors : List Error)
  | ok (incomplete : Option PostingDraft) (valid : List Posting)
      (bc : BalanceSheet) (pcc : List (Currency × Decimal)) (errors : List Error)

/-- Posting loop of `check_complete_txn`. -/
def cct_postings (postings : List PostingDraft) (txn_date : Date)
    (running_balance : BalanceSheet) (incomplete : Option PostingDraft)
    (valid : List Posting) (bc : BalanceSheet)
    (pcc : List (Currency × Decimal)) (errs : List Error) : Option CCTLoop :=
  match postings with
  | [] => some (.ok incomplete valid bc pcc errs)
  | posting :: rest =>
    match posting_flow posting txn_date running_balance bc pcc with
    | none => none
    | some (res, bc2, pcc2, newErrs) =>
      let errs2 := errs ++ newErrs
      match res with
      | .Fail => some (.dropped errs2)
      | .Expanded ps =>
        cct_postings rest txn_date running_balance incomplete (valid ++ ps) bc2 pcc2 errs2
      | .None => cct_postings rest txn_date running_balance incomplete valid bc2 pcc2 errs2
      | .Success p =>
        cct_postings rest txn_date running_balance incomplete (valid ++ [p]) bc2 pcc2 errs2
      | .NeedInfer pd =>
        match incomplete with
        | some _ =>
          some (.dropped (errs2 ++
            [{ msg := "Cannot infer the amounts for two posts", src := pd.src,
               etype := .Incomplete, level := .Error }]))
        | none => cct_postings rest txn_date running_balance (some pd) valid bc2 pcc2 errs2

/-- Check and complete a `Pending`/`Posted` transaction
(`check_complete_txn`).  The inner `Option` is the Rust return value
(`None` = transaction dropped); the second component is the list of newly
emitted errors. -/
def check_complete_txn (txn : TxnDraft) (running_balance : BalanceSheet)
    (tolerances : List (String × Decimal)) :
    Option (Option (List Transaction × BalanceSheet) × List Error) :=
  match cct_postings txn.postings txn.date running_balance none [] [] [] [] with
  | none => none
  | some (.dropped errs) => some (none, errs)
  | some (.ok incomplete valid bc pcc errs) =>
    let not_balanced := pcc.filter (fun e => !(equal_within e.2 0 e.1 tolerances))
    match complete_posting incomplete not_balanced txn.date txn.src valid bc with
    | none => none
    | some (.error e) => some (none, errs ++ [e])
    | some (.ok (valid2, bc2)) =>
      some (some ([{ date := txn.date, flag := txn.flag, payee := txn.payee,
                     narration := txn.narration, links := txn.links, tags := txn.tags,
                     meta := txn.meta, postings := valid2, src := txn.src }], bc2),
            errs)

/-- Merge a balance change into the running balance (`merge_balance`). -/
def merge_balance (running_balance : BalanceSheet) (changes : BalanceSheet) :
    BalanceSheet :=
  changes.foldl (fun rb acct =>
    aupd rb acct.1 [] (fun account_bal =>
      acct.2.foldl (fun ab curr =>
        aupd ab curr.1 [] (fun currency_bal =>
          curr.2.foldl (fun cb cost =>
            aupd cb cost.1 0 (fun x => dAdd x cost.2)) currency_bal)) account_bal))
    running_balance

/-- Deferred-pad bookkeeping (`struct PadFromInfo`); the Rust field `from`
is named `from_` here. -/
structure PadFromInfo where
  from_ : Account
  currencies : List Currency
  index : Nat
deriving DecidableEq, Repr

/-- Attempt to realize a pad for a failed balance assertion
(`try_padding`).  `Except.error` carries the Rust `Err(Option<Error>)`;
the outer `Option.none` models the `unwrap()` panic on a missing
from-account and out-of-bounds placeholder indexing. -/
def try_padding (dest_account : Account) (pad_number : Decimal)
    (currency : Currency) (pad_from : List (Account × PadFromInfo))
    (valid_txns : List Transaction)
    (valid_accounts : List (Account × AccountInfo)) (balance_src : Source) :
    Option (Except (Option Error)
      (Account × List (Account × PadFromInfo) × List Transaction)) :=
  match alookup pad_from dest_account with
  | some info =>
    match alookup valid_accounts info.from_ with
    | none => none
    | some from_info =>
      if from_info.currencies.length > 0 ∧ currency ∉ from_info.currencies then
        some (.error (some
          { msg := "Account " ++ info.from_ ++ " cannot hold " ++ currency ++ ".",
            level := .Error, etype := .Account, src := balance_src }))
      else
        let ins := sinsert info.currencies currency
        if ins.2 then
          match valid_txns[info.index]? with
          | none => none
          | some pad_place_holder =>
            let p1 : Posting :=
              { account := dest_account,
                amount := { number := pad_number, currency := currency },
                cost := none, price := none, meta := [], src := balance_src }
            let p2 : Posting :=
              { account := info.from_,
                amount := { number := dNeg pad_number, currency := currency },
                cost := none, price := none, meta := [], src := balance_src }
            let updated :=
              { pad_place_holder with
                postings := pad_place_holder.postings ++ [p1, p2] }
            some (.ok (info.from_,
              ainsert pad_from dest_account { info with currencies := ins.1 },
              valid_txns.set info.index updated))
        else some (.error none)
  | none => some (.error none)

/-- Summed running balance of an (account, currency) over all lots (the
`holding_total` computation in `check_balance`). -/
def holdingTotal (running_balance : BalanceSheet) (account : Account)
    (currency : Currency) : Decimal :=
  match (alookup running_balance account).bind (fun m => alookup m currency) with
  | some position => dSum (position.map Prod.snd)
  | none => 0

/-- Message of a failed balance assertion,
`"Failed assertion: {expected} != {actual} {currency}."`. -/
def failedAssertionMsg (p_amount : Amount) (holding_total : Decimal) : String :=
  "Failed assertion: " ++ amountToString p_amount ++ " != " ++
    toString holding_total ++ " " ++ p_amount.currency ++ "."

/-- Process one posting of a `Balance` transaction (the loop body of
`check_balance`).  Returns the updated accumulated valid postings,
running balance, pad registry, transaction list, and error list. -/
def check_balance_posting (posting : PostingDraft)
    (tolerances : List (String × Decimal))
    (valid_accounts : List (Account × AccountInfo))
    (valid_postings : List Posting) (running_balance : BalanceSheet)
    (pad_from : List (Account × PadFromInfo)) (valid_txns : List Transaction)
    (errors : List Error) :
    Option (List Posting × BalanceSheet × List (Account × PadFromInfo) ×
      List Transaction × List Error) :=
  if posting.cost.isSome ∨ posting.price.isSome then
    some (valid_postings, running_balance, pad_from, valid_txns,
      errors ++ [{ level := .Error, etype := .Syntax,
                   msg := "Balance directives only check aggregate amount.",
                   src := posting.src }])
  else
    match posting.amount with
    | some p_amount =>
      let holding_total : Decimal :=
        holdingTotal running_balance posting.account p_amount.currency
      let valid_posting : Posting :=
        { account := posting.account, amount := p_amount, cost := none,
          price := none, meta := posting.meta, src := posting.src }
      if equal_within holding_total p_amount.number p_amount.currency tolerances then
        some (valid_postings ++ [valid_posting], running_balance, pad_from,
          valid_txns, errors)
      else
        match try_padding posting.account (dSub p_amount.number holding_total)
            p_amount.currency pad_from valid_txns valid_accounts posting.src with
        | none => none
        | some (.ok (account_from, pad_from2, valid_txns2)) =>
          let pad_amount := dSub p_amount.number holding_total
          let rb2 := aupd running_balance posting.account []
            (fun m => aupd m p_amount.currency []
              (fun lots => aupd lots none 0 (fun x => dAdd x pad_amount)))
          let rb3 := aupd rb2 account_from []
            (fun m => aupd m p_amount.currency []
              (fun lots => aupd lots none 0 (fun x => dSub x pad_amount)))
          some (valid_postings ++ [valid_posting], rb3, pad_from2, valid_txns2,
            errors)
        | some (.error none) =>
          some (valid_postings, running_balance, pad_from, valid_txns,
            errors ++ [{ level := .Error, etype := .NotBalanced,
                         msg := failedAssertionMsg p_amount holding_total,
                         src := posting.src }])
        | some (.error (some e)) =>
          some (valid_postings, running_balance, pad_from, valid_txns,
            errors ++ [e])
    | none =>
      some (valid_postings, running_balance, pad_from, valid_txns,
        errors ++ [{ level := .Error, etype := .Incomplete,
                     msg := "Missing amount.", src := posting.src }])

/-- Posting loop of `check_balance`. -/
def check_balance_loop (postings : List PostingDraft)
    (tolerances : List (String × Decimal))
    (valid_accounts : List (Account × AccountInfo))
    (valid_postings : List Posting) (running_balance : BalanceSheet)
    (pad_from : List (Account × PadFromInfo)) (valid_txns : List Transaction)
    (errors : List Error) :
    Option (List Posting × BalanceSheet × List (Account × PadFromInfo) ×
      List Transaction × List Error) :=
  match postings with
  | [] => some (valid_postings, running_balance, pad_from, valid_txns, errors)
  | posting :: rest =>
    match check_balance_posting posting tolerances valid_accounts valid_postings
        running_balance pad_from valid_txns errors with
    | none => none
    | some (vp2, rb2, pf2, vt2, errs2) =>
      check_balance_loop rest tolerances valid_accounts vp2 rb2 pf2 vt2 errs2

/-- Check a `Balance` transaction (`check_balance`).  Returns the emitted
transaction (if any posting survived), the updated running balance, pad
registry and transaction list, and the newly emitted errors. -/
def check_balance (txn : TxnDraft) (running_balance : BalanceSheet)
    (tolerances : List (String × Decimal))
    (pad_from : List (Account × PadFromInfo)) (valid_txns : List Transaction)
    (valid_accounts : List (Account × AccountInfo)) :
    Option (Option Transaction × BalanceSheet × List (Account × PadFromInfo) ×
      List Transaction × List Error) :=
  match check_balance_loop txn.postings tolerances valid_accounts []
      running_balance pad_from valid_txns [] with
  | none => none
  | some (valid_postings, rb2, pf2, vt2, errs) =>
    if valid_postings.length > 0 then
      some (some { date := txn.date, flag := txn.flag, payee := txn.payee,
                   narration := txn.narration, links := txn.links,
                   tags := txn.tags, meta := txn.meta,
                   postings := valid_postings, src := txn.src },
            rb2, pf2, vt2, errs)
    else
      some (none, rb2, pf2, vt2, errs)

/-- Parse a boolean option value (`str::parse::<bool>()`). -/
def parseBool (s : String) : Option Bool :=
  if s = "true" then some true else if s = "false" then some false else none

/-- Sort key of a transaction draft (`into_ledger`): `(date, flag)` when
`balance_at_day_end` holds, else `(date, (flag as u8 + 1) % 4)`. -/
def txn_sort_key (balance_at_day_end : Bool) (t : TxnDraft) : Nat × Nat :=
  (t.date, if balance_at_day_end then t.flag.toU8 else (t.flag.toU8 + 1) % 4)

/-- Lexicographic order on sort keys (the `Ord` instance of Rust pairs). -/
def keyLeB (a b : Nat × Nat) : Bool :=
  a.1 < b.1 ∨ (a.1 = b.1 ∧ a.2 ≤ b.2)

/-- The sorting relation on transaction drafts used by the stable
`sort_by_key`. -/
def draft_le (balance_at_day_end : Bool) (t1 t2 : TxnDraft) : Prop :=
  keyLeB (txn_sort_key balance_at_day_end t1) (txn_sort_key balance_at_day_end t2) = true

instance (b : Bool) : DecidableRel (draft_le b) :=
  fun _ _ => inferInstanceAs (Decidable (_ = true))

/-- Mutable state of the replay loop of `into_ledger`. -/
structure ReplayState where
  errors : List Error
  valid_txns : List Transaction
  running_balance : BalanceSheet
  pad_from : List (Account × PadFromInfo)
  pad_to : List (Account × List Account)

/-- Invalidate pending pads touched by a `Balance` transaction (the
`pad_to.remove` loop in `into_ledger`). -/
def invalidate_pads (postings : List PostingDraft)
    (pad_from : List (Account × PadFromInfo))
    (pad_to : List (Account × List Account)) :
    List (Account × PadFromInfo) × List (Account × List Account) :=
  postings.foldl (fun acc posting =>
    match alookup acc.2 posting.account with
    | some set =>
      (set.foldl (fun pf2 dest => aremove pf2 dest) acc.1,
       aremove acc.2 posting.account)
    | none => acc) (pad_from, pad_to)

/-- One iteration of the replay loop of `into_ledger`: posting validation,
then dispatch on the transaction flag. -/
def replay_step (valid_accounts : List (Account × AccountInfo))
    (tolerances : List (String × Decimal)) (st : ReplayState) (txn : TxnDraft) :
    Option ReplayState :=
  let postErrs := txn.postings.filterMap (fun posting =>
    match check_posting posting txn.date valid_accounts with
    | .error msg =>
      some ({ msg := msg, src := posting.src, level := .Error,
              etype := .Account } : Error)
    | .ok _ => none)
  if postErrs ≠ [] then some { st with errors := st.errors ++ postErrs }
  else
    match txn.flag with
    | .Balance =>
      let pads := invalidate_pads txn.postings st.pad_from st.pad_to
      match check_balance txn st.running_balance tolerances pads.1 st.valid_txns
          valid_accounts with
      | none => none
      | some (out, rb2, pf2, vt2, newErrs) =>
        some { errors := st.errors ++ newErrs,
               valid_txns := vt2 ++ (match out with
                 | some t => [t]
                 | none => []),
               running_balance := rb2, pad_from := pf2, pad_to := pads.2 }
    | .Pending | .Posted =>
      match check_complete_txn txn st.running_balance tolerances with
      | none => none
      | some (result, newErrs) =>
        match result with
        | some (vec, changes) =>
          some { st with
                 errors := st.errors ++ newErrs,
                 valid_txns := st.valid_txns ++ vec,
                 running_balance := merge_balance st.running_balance changes }
        | none => some { st with errors := st.errors ++ newErrs }
    | .Pad =>
      match txn.postings with
      | [p0, p1] =>
        let placeholder : Transaction :=
          { date := txn.date, flag := txn.flag, payee := "",
            narration := "Pad " ++ p0.account ++ " from " ++ p1.account,
            links := txn.links, tags := txn.tags, meta := txn.meta,
            postings := [], src := txn.src }
        let pf2 := ainsert st.pad_from p0.account
          { from_ := p1.account, currencies := [], index := st.valid_txns.length }
        let pt2 := aupd st.pad_to p1.account [] (fun s => (sinsert s p0.account).1)
        some { st with
               valid_txns := st.valid_txns ++ [placeholder],
               pad_from := pf2, pad_to := pt2 }
      | _ =>
        some { st with
               errors := st.errors ++
                 [{ msg := "Invalid syntax: Pad must contains two accounts.",
                    level := .Error, etype := .Syntax, src := txn.src }] }

/-- The replay loop of `into_ledger` over the sorted transactions. -/
def replay (valid_accounts : List (Account × AccountInfo))
    (tolerances : List (String × Decimal)) :
    List TxnDraft → ReplayState → Option ReplayState
  | [], st => some st
  | txn :: rest, st =>
    match replay_step valid_accounts tolerances st txn with
    | none => none
    | some st2 => replay valid_accounts tolerances rest st2

/-- The `balance_at_day_end` option value that `into_ledger` reads. -/
def optionBalanceAtDayEnd (options : List (String × (String × Source))) : Bool :=
  (((alookup options OPTION_BALANCE_AT_DAY_END).map Prod.fst).bind parseBool).getD
    false

/-- Consume a ledger draft and produce the checked ledger together with
the collected errors (`LedgerDraft::into_ledger`); `none` models a
panicking run. -/
def into_ledger (draft : LedgerDraft) : Option (Ledger × List Error) :=
  let acc := check_accounts draft.accounts
  let tol := extract_tolerance draft.commodities draft.options
  let option_balance_at_day_end : Bool := optionBalanceAtDayEnd draft.options
  let sorted := List.insertionSort (draft_le option_balance_at_day_end) draft.txns
  match replay acc.1 tol.1 sorted
      { errors := acc.2 ++ tol.2, valid_txns := [], running_balance := [],
        pad_from := [], pad_to := [] } with
  | none => none
  | some st =>
    some ({ accounts := acc.1, commodities := draft.commodities,
            txns := st.valid_txns, options := draft.options,
            events := draft.events, balance_sheet := st.running_balance },
          st.errors)

/-- Merge another account draft into this one (`AccountInfoDraft::merge`
in `parser.rs`): duplicate `open`/`close` produce `Duplicate` errors, and
any error leaves the existing draft unchanged. -/
def AccountInfoDraft.merge (self : AccountInfoDraft) (another : AccountInfoDraft)
    (name : String) : AccountInfoDraft × List Error :=
  let openErrs : List Error :=
    match another.open_, self.open_ with
    | some (_, src), some (_, existing_src) =>
      [{ level := .Error, etype := .Duplicate,
         msg := "Account " ++ name ++ " has been opened at " ++ existing_src ++ ".",
         src := src }]
    | _, _ => []
  let closeErrs : List Error :=
    match another.close, self.close with
    | some (_, src), some (_, existing_src) =>
      [{ level := .Error, etype := .Duplicate,
         msg := "Account " ++ name ++ " has been closed at " ++ existing_src ++ ".",
         src := src }]
    | _, _ => []
  let errors := openErrs ++ closeErrs
  if errors.length = 0 then
    let self1 :=
      if another.open_.isSome then
        { self with open_ := another.open_, currencies := another.currencies }
      else self
    let self2 :=
      if another.close.isSome then { self1 with close := another.close } else self1
    ({ self2 with
       meta := self2.meta ++ another.meta,
       notes := self2.notes ++ another.notes,
       docs := self2.docs ++ another.docs }, errors)
  else (self, errors)

/-- Price-adjusted contribution of a checked posting to a currency,
following the claim wording of C1: a `Unit` price counts as
`posting.number * price.number`, a `Total` price counts with the sign of
`posting.number`, an unpriced posting counts at its own number; a cost is
ignored. -/
def claimedNumber (p : Posting) (c : Currency) : Decimal :=
  match p.price with
  | none => if p.amount.currency = c then p.amount.number else 0
  | some (.Unit u) => if u.currency = c then dMul p.amount.number u.number else 0
  | some (.Total t) =>
    if t.currency = c then (if p.amount.number < 0 then dNeg t.number else t.number)
    else 0

/-- Effective contribution of a checked posting to a currency as the
checker accounts for it: a posting carrying a cost counts as
`cost.amount.number * posting.number` in the cost currency; otherwise as
its price-adjusted amount. -/
def effNumber (p : Posting) (c : Currency) : Decimal :=
  match p.cost with
  | some uc =>
    if uc.amount.currency = c then dMul uc.amount.number p.amount.number else 0
  | none => claimedNumber p c

/-- Sum over a transaction's postings of the claim-counted amounts in a
currency. -/
def claimedSum (t : Transaction) (c : Currency) : Decimal :=
  dSum (t.postings.map (fun p => claimedNumber p c))

/-- Sum over a transaction's postings of the checker-counted amounts in a
currency. -/
def effSum (t : Transaction) (c : Currency) : Decimal :=
  dSum (t.postings.map (fun p => effNumber p c))

/-- The tolerance the checker applies to a currency: its own entry in the
tolerance table, else the default entry (`equal_within`'s lookup). -/
def applicable_tolerance (tolerances : List (String × Decimal))
    (currency : String) : Decimal :=
  (alookup tolerances currency).getD
    ((alookup tolerances TOLERANCE_KEY_DEFAULT).getD 0)

/-- A transaction is balanced in a currency when the checker-counted sum
is zero or within the applicable tolerance of zero. -/
def BalancedIn (tolerances : List (String × Decimal)) (t : Transaction)
    (c : Currency) : Prop :=
  effSum t c = 0 ∨ |effSum t c| < applicable_tolerance tolerances c

/-- Sort key of an emitted transaction, mirroring `txn_sort_key`. -/
def txn_key (balance_at_day_end : Bool) (t : Transaction) : Nat × Nat :=
  (t.date, if balance_at_day_end then t.flag.toU8 else (t.flag.toU8 + 1) % 4)

/-- Characterization of `is_opening_new` that the code actually
implements: the first lot-keyed entry of the running balance, in
iteration order, decides (no entry means opening). -/
def firstLotDecides (p_number : Decimal)
    (running_balance : Option (List (Option UnitCost × Decimal))) : Bool :=
  match (running_balance.getD []).find? (fun e => e.1.isSome) with
  | none => true
  | some (_, number) =>
    !((number < 0 ∧ 0 ≤ p_number) ∨ (0 ≤ number ∧ p_number < 0) : Bool)

/-- The predicate claimed by C6: the running balance holds no lot-keyed
entry whose quantity has the sign opposite to the posting's number. -/
def noOppositeLot (p_number : Decimal)
    (running_balance : Option (List (Option UnitCost × Decimal))) : Prop :=
  ∀ e ∈ running_balance.getD [], e.1.isSome →
    ¬ ((e.2 < 0 ∧ 0 ≤ p_number) ∨ (0 ≤ e.2 ∧ p_number < 0))

/-- The tolerance contributed by the commodity metadata of `c`: the
absolute value of its parseable `tolerance` entry, if any. -/
def tolOfCommodity (commodities : List (Currency × (Meta × Source)))
    (c : Currency) : Option Decimal :=
  (alookup commodities c).bind (fun ms =>
    (alookup ms.1 "tolerance").bind (fun p => (parseDecimalString p.1).map dAbs))

/-- Account information with the given allowed-currency set, used by the
concrete witness states below. -/
def wAccInfo (cs : List Currency) : AccountInfo :=
  { open_ := (0, "s"), close := none, currencies := cs, notes := [], docs := [],
    meta := [] }

/-- A concrete balance-assertion posting on account `A` for `n USD`. -/
def wBalPosting (n : Decimal) : PostingDraft :=
  { account := "A", amount := some { number := n, currency := "USD" },
    cost := none, price := none, meta := [], src := "s" }

/-- A concrete `Balance` transaction with a single posting. -/
def wBalTxn (n : Decimal) : TxnDraft :=
  { date := 3, flag := .Balance, payee := "", narration := "", links := [],
    tags := [], meta := [], postings := [wBalPosting n], src := "t" }

/-- A concrete running balance: account `A` holds `100 USD` without cost. -/
def wRB : BalanceSheet := [("A", [("USD", [(none, 100)])])]

/-- A concrete tolerance table holding only the default `0.006`. -/
def wTol : List (String × Decimal) := [(TOLERANCE_KEY_DEFAULT, mkRat 6 1000)]

/-- A concrete empty pad placeholder transaction. -/
def wPadPlaceholder : Transaction :=
  { date := 1, flag := .Pad, payee := "", narration := "Pad A from F",
    links := [], tags := [], meta := [], postings := [], src := "p" }

/-- A concrete pad registry: a pad into `A` from `F` at placeholder 0,
already realized for `USD`. -/
def c8PadFrom : List (Account × PadFromInfo) :=
  [("A", { from_ := "F", currencies := ["USD"], index := 0 })]

/-- Concrete valid accounts `A` and `F`, both currency-unrestricted. -/
def c8Accounts : List (Account × AccountInfo) :=
  [("A", wAccInfo []), ("F", wAccInfo [])]

/-- A concrete pad registry: a pad into `A` from `F` at placeholder 0,
not yet realized for any currency. -/
def c3PadFrom : List (Account × PadFromInfo) :=
  [("A", { from_ := "F", currencies := [], index := 0 })]

/-- A concrete lot map holding `+1` at one unit cost and `-1` at another
(mixed signs). -/
def c6Lots : List (Option UnitCost × Decimal) :=
  [(some { amount := { number := 1, currency := "USD" }, date := 0 }, 1),
   (some { amount := { number := 2, currency := "USD" }, date := 0 }, -1)]

/-- A concrete running balance carrying the mixed-sign lots on
`("A", "FOO")`. -/
def c6RB : BalanceSheet := [("A", [("FOO", c6Lots)])]

/-- A concrete posting of `+1 FOO` at unit cost `3 USD`. -/
def c6Posting : PostingDraft :=
  { account := "A", amount := some { number := 1, currency := "FOO" },
    cost := some { date := none,
                   basis := some (CostBasis.Unit { number := 3, currency := "USD" }) },
    price := none, meta := [], src := "s" }

/-- The cost carried by a successful post result, if any. -/
def postResultCost : PostResult → Option (Option UnitCost)
  | .Success p => some p.cost
  | _ => none

/-- A concrete close-all posting: `-3 FOO` with empty cost literal. -/
def c7Posting : PostingDraft :=
  { account := "A", amount := some { number := -3, currency := "FOO" },
    cost := some { date := none, basis := none }, price := none, meta := [],
    src := "s" }

/-- Concrete lots summing to `3`. -/
def c7Holding : List (Option UnitCost × Decimal) :=
  [(some { amount := { number := 1, currency := "USD" }, date := 0 }, 1),
   (some { amount := { number := 2, currency := "USD" }, date := 0 }, 2)]

/-- A concrete balanced `Posted` transaction whose postings name accounts
in non-alphabetical order (`B` before `A`). -/
def c9Txn : TxnDraft :=
  { date := 1, flag := .Posted, payee := "", narration := "", links := [],
    tags := [], meta := [],
    postings :=
      [{ account := "B", amount := some { number := 1, currency := "USD" },
         cost := none, price := none, meta := [], src := "s" },
       { account := "A", amount := some { number := -1, currency := "USD" },
         cost := none, price := none, meta := [], src := "s" }],
    src := "t" }

/-- The postings contributed by a post result. -/
def resPostings : PostResult → List Posting
  | .Success p => [p]
  | .Expanded ps => ps
  | _ => []

/-- Date and flag of a transaction (the part of it that the sort key
reads). -/
def txnPair (t : Transaction) : Nat × TxnFlag := (t.date, t.flag)

/-- Sort key of a (date, flag) pair, per the configured
`balance_at_day_end` option. -/
def pairKey (balance_at_day_end : Bool) (pr : Nat × TxnFlag) : Nat × Nat :=
  (pr.1, if balance_at_day_end then pr.2.toU8 else (pr.2.toU8 + 1) % 4)

/-- Default ledger result used with `Option.getD` by the witnesses. -/
def emptyLedgerPair : Ledger × List Error :=
  ({ accounts := [], commodities := [], txns := [], options := [],
     events := [], balance_sheet := [] }, [])

/-- A concrete draft with one `Posted` transaction and one `Balance`
assertion on the same date, listed out of order. -/
def wC2Draft : LedgerDraft :=
  { accounts := [("A", { open_ := some (0, "s"), close := none,
                         currencies := [], notes := [], docs := [], meta := [] }),
                 ("B", { open_ := some (0, "s"), close := none,
                         currencies := [], notes := [], docs := [], meta := [] })],
    commodities := [],
    txns := [{ date := 1, flag := .Posted, payee := "", narration := "",
               links := [], tags := [], meta := [],
               postings :=
                 [{ account := "A",
                    amount := some { number := 1, currency := "USD" },
                    cost := none, price := none, meta := [], src := "s" },
                  { account := "B",
                    amount := some { number := -1, currency := "USD" },
                    cost := none, price := none, meta := [], src := "s" }],
               src := "t1" },
             { date := 1, flag := .Balance, payee := "", narration := "",
               links := [], tags := [], meta := [],
               postings :=
                 [{ account := "A",
                    amount := some { number := 0, currency := "USD" },
                    cost := none, price := none, meta := [], src := "s" }],
               src := "t2" }],
    options := [], events := [] }

/-- The checked ledger of `wC2Draft`. -/
def wC2Res : Ledger × List Error := (into_ledger wC2Draft).getD emptyLedgerPair

/-- Per-currency-change lookup with default `0` (how `complete_posting`
and the balance arithmetic read the `per_currency_change` map). -/
def lookupD (m : List (Currency × Decimal)) (c : Currency) : Decimal :=
  (alookup m c).getD 0

/-- A concrete draft with one `Posted` transaction holding a costed
posting: `A 10 FOO {50 USD}` against `B -500 USD`.  The checker balances
it in `USD` (`10 * 50 - 500 = 0`), while the postings counted at their
own numbers leave `10 FOO` unaccounted. -/
def c1CexDraft : LedgerDraft :=
  { accounts := [("A", { open_ := some (0, "s"), close := none,
                         currencies := [], notes := [], docs := [], meta := [] }),
                 ("B", { open_ := some (0, "s"), close := none,
                         currencies := [], notes := [], docs := [], meta := [] })],
    commodities := [],
    txns := [{ date := 1, flag := .Posted, payee := "", narration := "",
               links := [], tags := [], meta := [],
               postings :=
                 [{ account := "A",
                    amount := some { number := 10, currency := "FOO" },
                    cost := some { date := none,
                                   basis := some (.Unit { number := 50,
                                                          currency := "USD" }) },
                    price := none, meta := [], src := "s" },
                  { account := "B",
                    amount := some { number := -500, currency := "USD" },
                    cost := none, price := none, meta := [], src := "s" }],
               src := "t" }],
    options := [], events := [] }

/-- The checked ledger of `c1CexDraft`. -/
def c1CexPair : Ledger × List Error :=
  (into_ledger c1CexDraft).getD emptyLedgerPair

theorem dAdd_eq (a b : Decimal) : dAdd a b = a + b := by
  unfold dAdd
  rw [Rat.mkRat_eq_div]
  push_cast
  rw [eq_comm]
  conv_lhs => rw [← Rat.num_div_den a, ← Rat.num_div_den b]
  have ha : ((a.den : Rat)) ≠ 0 := by exact_mod_cast a.den_ne_zero
  have hb : ((b.den : Rat)) ≠ 0 := by exact_mod_cast b.den_ne_zero
  field_simp

theorem dNeg_eq (a : Decimal) : dNeg a = -a := by
  unfold dNeg
  rw [Rat.mkRat_eq_div]
  push_cast
  rw [neg_div, Rat.num_div_den]

theorem dSub_eq (a b : Decimal) : dSub a b = a - b := by
  rw [dSub, dAdd_eq, dNeg_eq, sub_eq_add_neg]

theorem dMul_eq (a b : Decimal) : dMul a b = a * b := by
  unfold dMul
  rw [Rat.mkRat_eq_div]
  push_cast
  rw [eq_comm]
  conv_lhs => rw [← Rat.num_div_den a, ← Rat.num_div_den b]
  have ha : ((a.den : Rat)) ≠ 0 := by exact_mod_cast a.den_ne_zero
  have hb : ((b.den : Rat)) ≠ 0 := by exact_mod_cast b.den_ne_zero
  field_simp

theorem dDiv_eq (a b : Decimal) : dDiv a b = a / b := by
  unfold dDiv
  rcases eq_or_ne b 0 with hb | hb
  · subst hb
    simp [mkRat]
  · have hbn : b.num ≠ 0 := Rat.num_ne_zero.mpr hb
    have ha : ((a.den : Rat)) ≠ 0 := by exact_mod_cast a.den_ne_zero
    have hbd : ((b.den : Rat)) ≠ 0 := by exact_mod_cast b.den_ne_zero
    have ha1 : ((a.num : Rat)) = a * a.den := (div_eq_iff ha).mp (Rat.num_div_den a)
    have hb1 : ((b.num : Rat)) = b * b.den := (div_eq_iff hbd).mp (Rat.num_div_den b)
    rw [Rat.mkRat_eq_div]
    push_cast
    rcases lt_or_le b.num 0 with h | h
    · have hnat : ((b.num.natAbs : Rat)) = -((b.num : Rat)) := by
        rw [Int.cast_natAbs, abs_of_neg h]
        push_cast
        ring
      rw [if_pos h, hnat, div_eq_div_iff (by simp [ha, hbn]) hb, ha1, hb1]
      ring
    · have hnat : ((b.num.natAbs : Rat)) = ((b.num : Rat)) := by
        rw [Int.cast_natAbs, abs_of_nonneg h]
      rw [if_neg (not_lt.mpr h), hnat, div_eq_div_iff (by simp [ha, hbn]) hb, ha1,
        hb1]
      ring

theorem dAbs_eq (a : Decimal) : dAbs a = |a| := by
  unfold dAbs
  rcases lt_or_le a.num 0 with h | h
  · rw [if_pos h, dNeg_eq, abs_of_neg (Rat.num_neg.mp h)]
  · rw [if_neg (not_lt.mpr h), abs_of_nonneg (Rat.num_nonneg.mp h)]

theorem dSum_eq (l : List Decimal) : dSum l = l.sum := by
  induction l with
  | nil => rfl
  | cons x xs ih =>
    rw [dSum, List.foldr_cons, dAdd_eq, List.sum_cons]
    rw [dSum] at ih
    rw [ih]

theorem alookup_aupd {α β : Type} [DecidableEq α] (m : List (α × β)) (k : α)
    (d : β) (f : β → β) (q : α) :
    alookup (aupd m k d f) q =
      if q = k then some (f ((alookup m k).getD d)) else alookup m q := by
  induction m with
  | nil =>
    by_cases h : q = k <;> simp_all [aupd, alookup, eq_comm]
  | cons e rest ih =>
    obtain ⟨k1, v⟩ := e
    by_cases h1 : k1 = k <;> by_cases h2 : q = k1 <;>
      simp_all [aupd, alookup, eq_comm]

theorem alookup_ainsert {α β : Type} [DecidableEq α] (m : List (α × β)) (k : α)
    (v : β) (q : α) :
    alookup (ainsert m k v) q = if q = k then some v else alookup m q := by
  induction m with
  | nil =>
    by_cases h : q = k <;> simp_all [ainsert, alookup, eq_comm]
  | cons e rest ih =>
    obtain ⟨k1, v1⟩ := e
    by_cases h1 : k1 = k <;> by_cases h2 : q = k1 <;>
      simp_all [ainsert, alookup, eq_comm]

theorem aupd_keys {α β : Type} [DecidableEq α] (m : List (α × β)) (k : α)
    (d : β) (f : β → β) :
    (aupd m k d f).map Prod.fst =
      if k ∈ m.map Prod.fst then m.map Prod.fst else m.map Prod.fst ++ [k] := by
  induction m with
  | nil => simp [aupd]
  | cons e rest ih =>
    obtain ⟨k1, v⟩ := e
    by_cases h1 : k1 = k
    · subst h1
      simp [aupd]
    · have h1s : ¬ k = k1 := fun hh => h1 hh.symm
      simp only [aupd, if_neg h1, List.map_cons, List.mem_cons]
      rw [ih]
      by_cases h2 : k ∈ rest.map Prod.fst
      · simp [h2, h1s]
      · simp [h2, h1s]

theorem aupd_keys_nodup {α β : Type} [DecidableEq α] (m : List (α × β)) (k : α)
    (d : β) (f : β → β) (h : (m.map Prod.fst).Nodup) :
    ((aupd m k d f).map Prod.fst).Nodup := by
  rw [aupd_keys]
  split_ifs with hmem
  · exact h
  · simp [List.nodup_append, h, hmem, List.disjoint_singleton]

/-- C10: `AccountInfoDraft::merge` is atomic on error: whenever it reports
any error (a duplicate `open` or a duplicate `close`), the existing
account draft is returned entirely unchanged, discarding all of the
incoming draft's fields. -/
theorem merge_atomic_on_error (self another : AccountInfoDraft) (name : String)
    (h : (AccountInfoDraft.merge self another name).2 ≠ []) :
    (AccountInfoDraft.merge self another name).1 = self ∧
      ((another.open_.isSome ∧ self.open_.isSome) ∨
        (another.close.isSome ∧ self.close.isSome)) := by
  unfold AccountInfoDraft.merge at h ⊢
  rcases ho : another.open_ with _ | ⟨od, osrc⟩ <;>
    rcases hso : self.open_ with _ | ⟨sod, sosrc⟩ <;>
      rcases hc : another.close with _ | ⟨cd, csrc⟩ <;>
        rcases hsc : self.close with _ | ⟨scd, scsrc⟩ <;>
          simp_all

theorem merge_atomic_on_error_witness :
    (AccountInfoDraft.merge
        { open_ := some (1, "a"), close := none, currencies := ["USD"],
          notes := [], docs := [], meta := [] }
        { open_ := some (2, "b"), close := none, currencies := ["EUR"],
          notes := [], docs := [], meta := [] } "A").2 ≠ [] ∧
      (AccountInfoDraft.merge
        { open_ := some (1, "a"), close := none, currencies := ["USD"],
          notes := [], docs := [], meta := [] }
        { open_ := some (2, "b"), close := none, currencies := ["EUR"],
          notes := [], docs := [], meta := [] } "A").1 =
        { open_ := some (1, "a"), close := none, currencies := ["USD"],
          notes := [], docs := [], meta := [] } :=
  ⟨by decide,
   (merge_atomic_on_error
     { open_ := some (1, "a"), close := none, currencies := ["USD"],
       notes := [], docs := [], meta := [] }
     { open_ := some (2, "b"), close := none, currencies := ["EUR"],
       notes := [], docs := [], meta := [] } "A" (by decide)).1⟩

theorem alookup_eq_none {α β : Type} [DecidableEq α] (m : List (α × β)) (k : α) :
    alookup m k = none ↔ k ∉ m.map Prod.fst := by
  induction m with
  | nil => simp [alookup]
  | cons e rest ih =>
    obtain ⟨k1, v⟩ := e
    by_cases h : k1 = k <;> simp_all [alookup, eq_comm]

theorem extract_tolerance_loop_lookup
    (commodities : List (Currency × (Meta × Source))) (c : Currency)
    (hnodup : (commodities.map Prod.fst).Nodup) :
    alookup (extract_tolerance_loop commodities).1 c =
      tolOfCommodity commodities c := by
  induction commodities with
  | nil => simp [extract_tolerance_loop, tolOfCommodity, alookup]
  | cons e rest ih =>
    obtain ⟨cur, meta, src⟩ := e
    simp only [List.map_cons, List.nodup_cons] at hnodup
    have ih2 := ih hnodup.2
    by_cases hc : cur = c
    · subst hc
      have hnone : alookup (extract_tolerance_loop rest).1 cur = none := by
        rw [ih2]
        simp [tolOfCommodity, (alookup_eq_none rest cur).mpr hnodup.1]
      cases htol : alookup meta "tolerance" with
      | none => simp [extract_tolerance_loop, tolOfCommodity, alookup, htol, hnone]
      | some pair =>
        obtain ⟨ns, ss⟩ := pair
        cases hp : parseDecimalString ns with
        | none =>
          simp [extract_tolerance_loop, tolOfCommodity, alookup, htol, hp,
            parse_decimal, hnone]
        | some d =>
          simp [extract_tolerance_loop, tolOfCommodity, alookup, htol, hp,
            parse_decimal, alookup_ainsert]
    · have hcs : ¬ c = cur := fun hh => hc hh.symm
      cases htol : alookup meta "tolerance" with
      | none => simpa [extract_tolerance_loop, tolOfCommodity, alookup, htol, hc] using ih2
      | some pair =>
        obtain ⟨ns, ss⟩ := pair
        cases hp : parseDecimalString ns with
        | none =>
          simpa [extract_tolerance_loop, tolOfCommodity, alookup, htol, hp,
            parse_decimal, hc] using ih2
        | some d =>
          simpa [extract_tolerance_loop, tolOfCommodity, alookup, htol, hp,
            parse_decimal, alookup_ainsert, hc, hcs] using ih2

theorem equal_within_iff (lhs rhs : Decimal) (c : String)
    (tolerances : List (String × Decimal)) :
    equal_within lhs rhs c tolerances = true ↔
      lhs = rhs ∨ |lhs - rhs| < applicable_tolerance tolerances c := by
  unfold equal_within applicable_tolerance
  by_cases h : lhs = rhs
  · simp [h]
  · simp [h, dAbs_eq, dSub_eq]

/-- C5: the tolerance the checker applies to a currency is the absolute
value of the Decimal parsed from the commodity's `tolerance` metadata
when present and parseable, otherwise the absolute value of the Decimal
parsed from option `default_tolerance` when present, otherwise `0.006`;
and `equal_within` holds iff the two decimals are identical or apart by
strictly less than this tolerance.  (`c ≠ ";"` excludes the reserved
internal default key, which no lexable currency can collide with.) -/
theorem tolerance_of_currency (commodities : List (Currency × (Meta × Source)))
    (options : List (String × (String × Source))) (c : Currency)
    (lhs rhs : Decimal)
    (hnodup : (commodities.map Prod.fst).Nodup)
    (hcd : c ≠ TOLERANCE_KEY_DEFAULT) :
    (∀ meta src ns ss d, alookup commodities c = some (meta, src) →
      alookup meta "tolerance" = some (ns, ss) → parseDecimalString ns = some d →
      applicable_tolerance (extract_tolerance commodities options).1 c = |d|) ∧
    (∀ ns ss d, tolOfCommodity commodities c = none →
      alookup options OPTION_DEFAULT_TOLERANCE = some (ns, ss) →
      parseDecimalString ns = some d →
      applicable_tolerance (extract_tolerance commodities options).1 c = |d|) ∧
    (tolOfCommodity commodities c = none →
      alookup options OPTION_DEFAULT_TOLERANCE = none →
      applicable_tolerance (extract_tolerance commodities options).1 c =
        6 / 1000) ∧
    (equal_within lhs rhs c (extract_tolerance commodities options).1 = true ↔
      lhs = rhs ∨
        |lhs - rhs| <
          applicable_tolerance (extract_tolerance commodities options).1 c) := by
  have hc_table : alookup (extract_tolerance commodities options).1 c =
      tolOfCommodity commodities c := by
    rw [← extract_tolerance_loop_lookup commodities c hnodup]
    cases hopt : alookup options OPTION_DEFAULT_TOLERANCE with
    | none => simp [extract_tolerance, hopt, alookup_ainsert, hcd]
    | some p =>
      obtain ⟨ns, ss⟩ := p
      cases hp : parseDecimalString ns with
      | none => simp [extract_tolerance, hopt, parse_decimal, hp]
      | some d0 =>
        simp [extract_tolerance, hopt, parse_decimal, hp, alookup_ainsert, hcd]
  refine ⟨?p1, ?p2, ?p3, equal_within_iff lhs rhs c _⟩
  · intro meta src ns ss d hmeta htol hp
    have : tolOfCommodity commodities c = some (dAbs d) := by
      simp [tolOfCommodity, hmeta, htol, hp]
    rw [applicable_tolerance, hc_table, this]
    simp [dAbs_eq]
  · intro ns ss d habsent hopt hp
    have hdef : alookup (extract_tolerance commodities options).1
        TOLERANCE_KEY_DEFAULT = some (dAbs d) := by
      simp [extract_tolerance, hopt, parse_decimal, hp, alookup_ainsert]
    rw [applicable_tolerance, hc_table, habsent, hdef]
    simp [dAbs_eq]
  · intro habsent hopt
    have hdef : alookup (extract_tolerance commodities options).1
        TOLERANCE_KEY_DEFAULT = some (mkRat 6 1000) := by
      simp [extract_tolerance, hopt, alookup_ainsert]
    rw [applicable_tolerance, hc_table, habsent, hdef]
    rw [Option.getD_some, Rat.mkRat_eq_div]
    norm_num

theorem tolerance_of_currency_witness :
    applicable_tolerance
        (extract_tolerance [("USD", ([("tolerance", ("0.01", "s"))], "s"))] []).1
        "USD" = |mkRat 1 100| ∧
      (equal_within 5 5 "USD"
          (extract_tolerance [("USD", ([("tolerance", ("0.01", "s"))], "s"))] []).1 =
        true ↔
        (5 : Decimal) = 5 ∨
          |(5 : Decimal) - 5| <
            applicable_tolerance
              (extract_tolerance [("USD", ([("tolerance", ("0.01", "s"))], "s"))] []).1
              "USD") :=
  ⟨(tolerance_of_currency [("USD", ([("tolerance", ("0.01", "s"))], "s"))] []
      "USD" 5 5 (by decide) (by decide)).1 [("tolerance", ("0.01", "s"))] "s"
      "0.01" "s" (mkRat 1 100) (by decide) (by decide) (by decide),
   (tolerance_of_currency [("USD", ([("tolerance", ("0.01", "s"))], "s"))] []
      "USD" 5 5 (by decide) (by decide)).2.2.2⟩

/-- C4: a `Balance` posting (no cost, no price) whose asserted amount
differs from the summed running balance by at least the applicable
tolerance, with no pad registered for the account, makes `check_balance`
emit exactly one `Error`-level `NotBalanced` error of the form
`"Failed assertion: <asserted> != <actual> <CUR>."` and drop the posting
from the emitted transaction (here the sole posting, so no transaction is
emitted and all state is unchanged). -/
theorem failed_assertion_emits_error (txn : TxnDraft) (posting : PostingDraft)
    (p_amount : Amount) (running_balance : BalanceSheet)
    (tolerances : List (String × Decimal))
    (pad_from : List (Account × PadFromInfo)) (valid_txns : List Transaction)
    (valid_accounts : List (Account × AccountInfo))
    (hps : txn.postings = [posting])
    (hcost : posting.cost = none) (hprice : posting.price = none)
    (hamount : posting.amount = some p_amount)
    (hfail : equal_within
      (holdingTotal running_balance posting.account p_amount.currency)
      p_amount.number p_amount.currency tolerances = false)
    (hpad : alookup pad_from posting.account = none) :
    check_balance txn running_balance tolerances pad_from valid_txns
        valid_accounts =
      some (none, running_balance, pad_from, valid_txns,
        [{ level := .Error, etype := .NotBalanced,
           msg := failedAssertionMsg p_amount
             (holdingTotal running_balance posting.account p_amount.currency),
           src := posting.src }]) := by
  unfold check_balance
  rw [hps]
  unfold check_balance_loop check_balance_posting
  simp [hcost, hprice, hamount, hfail, try_padding, hpad, check_balance_loop]

theorem failed_assertion_emits_error_witness :
    equal_within (holdingTotal wRB (wBalPosting 101).account "USD") 101 "USD"
        wTol = false ∧
      check_balance (wBalTxn 101) wRB wTol [] [] [] =
        some (none, wRB, [], [],
          [{ level := .Error, etype := .NotBalanced,
             msg := failedAssertionMsg { number := 101, currency := "USD" }
               (holdingTotal wRB "A" "USD"),
             src := "s" }]) :=
  ⟨by decide,
   failed_assertion_emits_error (wBalTxn 101) (wBalPosting 101)
     { number := 101, currency := "USD" } wRB wTol [] [] [] (by decide)
     (by decide) (by decide) (by decide) (by decide) (by decide)⟩

/-- C8 counterexample: with the pad for account `A` already realized for
`USD` (and the from-account unrestricted), a failing assertion posting is
dropped, the placeholder and running balance stay unchanged — but,
contrary to the claim, an `Error`-level `NotBalanced` failed-assertion
error IS emitted: `try_padding` answers `Err(None)` both when no pad is
registered and when the currency is already filled, and `check_balance`
pushes the assertion error in either case. -/
theorem pad_already_filled_emits_error :
    (check_balance (wBalTxn 5) [] wTol c8PadFrom [wPadPlaceholder]
        c8Accounts).map (fun r => r.2.2.2.2) =
      some [{ level := .Error, etype := .NotBalanced,
              msg := failedAssertionMsg { number := 5, currency := "USD" } 0,
              src := "s" }] ∧
    (check_balance (wBalTxn 5) [] wTol c8PadFrom [wPadPlaceholder]
        c8Accounts).map (fun r => (r.1, r.2.2.1, r.2.2.2.1)) =
      some (none, c8PadFrom, [wPadPlaceholder]) ∧
    (check_balance (wBalTxn 5) [] wTol c8PadFrom [wPadPlaceholder]
        c8Accounts).map (fun r => r.2.1) = some [] := by
  refine ⟨by decide, by decide, by rfl⟩

/-- C8 amended: when a balance assertion fails outside tolerance and the
pad registered for the account has already been realized for the asserted
currency (and the from-account's allowed-currency set is empty or
contains the currency), the assertion posting is dropped from the emitted
transaction, the pad placeholder transaction, pad registry and running
balance are left unchanged, and the same `Error`-level `NotBalanced`
failed-assertion error is emitted as in the no-pad case. -/
theorem pad_already_filled_drops_posting (txn : TxnDraft)
    (posting : PostingDraft) (p_amount : Amount)
    (running_balance : BalanceSheet) (tolerances : List (String × Decimal))
    (pad_from : List (Account × PadFromInfo)) (valid_txns : List Transaction)
    (valid_accounts : List (Account × AccountInfo)) (info : PadFromInfo)
    (fromInfo : AccountInfo)
    (hps : txn.postings = [posting])
    (hcost : posting.cost = none) (hprice : posting.price = none)
    (hamount : posting.amount = some p_amount)
    (hfail : equal_within
      (holdingTotal running_balance posting.account p_amount.currency)
      p_amount.number p_amount.currency tolerances = false)
    (hpad : alookup pad_from posting.account = some info)
    (hfilled : p_amount.currency ∈ info.currencies)
    (hfrom : alookup valid_accounts info.from_ = some fromInfo)
    (hfromok : fromInfo.currencies = [] ∨ p_amount.currency ∈ fromInfo.currencies) :
    check_balance txn running_balance tolerances pad_from valid_txns
        valid_accounts =
      some (none, running_balance, pad_from, valid_txns,
        [{ level := .Error, etype := .NotBalanced,
           msg := failedAssertionMsg p_amount
             (holdingTotal running_balance posting.account p_amount.currency),
           src := posting.src }]) := by
  have hcond : ¬ (fromInfo.currencies.length > 0 ∧
      p_amount.currency ∉ fromInfo.currencies) := by
    rcases hfromok with h | h
    · simp [h]
    · simp [h]
  unfold check_balance
  rw [hps]
  unfold check_balance_loop check_balance_posting
  simp [hcost, hprice, hamount, hfail, try_padding, hpad, hfrom, hcond,
    sinsert, hfilled, check_balance_loop]

theorem pad_already_filled_drops_posting_witness :
    alookup c8PadFrom "A" = some { from_ := "F", currencies := ["USD"], index := 0 } ∧
      check_balance (wBalTxn 5) [] wTol c8PadFrom [wPadPlaceholder] c8Accounts =
        some (none, [], c8PadFrom, [wPadPlaceholder],
          [{ level := .Error, etype := .NotBalanced,
             msg := failedAssertionMsg { number := 5, currency := "USD" } 0,
             src := "s" }]) :=
  ⟨by decide,
   pad_already_filled_drops_posting (wBalTxn 5) (wBalPosting 5)
     { number := 5, currency := "USD" } [] wTol c8PadFrom [wPadPlaceholder]
     c8Accounts { from_ := "F", currencies := ["USD"], index := 0 } (wAccInfo [])
     (by decide) (by decide) (by decide) (by decide) (by decide) (by decide)
     (by decide) (by decide) (Or.inl (by decide))⟩

/-- C3: when a balance assertion on (account, currency) fails outside
tolerance and a pad is registered for the account, not yet filled for the
currency, whose from-account is present with an empty allowed-currency
set or one containing the currency, then `check_balance` appends exactly
the two postings `+gap` (on the asserted account) and `-gap` (on the
from-account) with no cost and no price to the earlier placeholder
transaction, where `gap` is the asserted number minus the summed running
balance, updates the running balance of both accounts by `+gap` and
`-gap` under lot key `none`, marks the currency as filled for that pad,
and emits no error (the asserted posting itself is kept). -/
theorem pad_realization (txn : TxnDraft) (posting : PostingDraft)
    (p_amount : Amount) (running_balance : BalanceSheet)
    (tolerances : List (String × Decimal))
    (pad_from : List (Account × PadFromInfo)) (valid_txns : List Transaction)
    (valid_accounts : List (Account × AccountInfo)) (info : PadFromInfo)
    (fromInfo : AccountInfo) (gap : Decimal)
    (hps : txn.postings = [posting])
    (hcost : posting.cost = none) (hprice : posting.price = none)
    (hamount : posting.amount = some p_amount)
    (hfail : equal_within
      (holdingTotal running_balance posting.account p_amount.currency)
      p_amount.number p_amount.currency tolerances = false)
    (hpad : alookup pad_from posting.account = some info)
    (hnotfilled : p_amount.currency ∉ info.currencies)
    (hfrom : alookup valid_accounts info.from_ = some fromInfo)
    (hfromok : fromInfo.currencies = [] ∨ p_amount.currency ∈ fromInfo.currencies)
    (hidx : info.index < valid_txns.length)
    (hgap : gap = dSub p_amount.number
      (holdingTotal running_balance posting.account p_amount.currency)) :
    check_balance txn running_balance tolerances pad_from valid_txns
        valid_accounts =
      some
        (some { date := txn.date, flag := txn.flag, payee := txn.payee,
                narration := txn.narration, links := txn.links, tags := txn.tags,
                meta := txn.meta,
                postings := [{ account := posting.account, amount := p_amount,
                               cost := none, price := none, meta := posting.meta,
                               src := posting.src }],
                src := txn.src },
         aupd
           (aupd running_balance posting.account []
             (fun m => aupd m p_amount.currency []
               (fun lots => aupd lots none 0 (fun x => dAdd x gap))))
           info.from_ []
           (fun m => aupd m p_amount.currency []
             (fun lots => aupd lots none 0 (fun x => dSub x gap))),
         ainsert pad_from posting.account
           { info with currencies := info.currencies ++ [p_amount.currency] },
         valid_txns.set info.index
           { valid_txns.get ⟨info.index, hidx⟩ with
             postings := (valid_txns.get ⟨info.index, hidx⟩).postings ++
               [{ account := posting.account,
                  amount := { number := gap, currency := p_amount.currency },
                  cost := none, price := none, meta := [], src := posting.src },
                { account := info.from_,
                  amount := { number := dNeg gap, currency := p_amount.currency },
                  cost := none, price := none, meta := [], src := posting.src }] },
         []) := by
  have hcond : ¬ (fromInfo.currencies.length > 0 ∧
      p_amount.currency ∉ fromInfo.currencies) := by
    rcases hfromok with h | h
    · simp [h]
    · simp [h]
  have hget : valid_txns[info.index]? = some (valid_txns.get ⟨info.index, hidx⟩) := by
    simp [List.getElem?_eq_getElem hidx]
  subst hgap
  unfold check_balance
  rw [hps]
  unfold check_balance_loop check_balance_posting
  simp [hcost, hprice, hamount, hfail, try_padding, hpad, hfrom, hcond,
    sinsert, hnotfilled, hget, check_balance_loop]

theorem pad_realization_witness :
    equal_within (holdingTotal [] "A" "USD") 250 "USD" wTol = false ∧
      check_balance (wBalTxn 250) [] wTol c3PadFrom [wPadPlaceholder]
          c8Accounts =
        some
          (some { date := 3, flag := .Balance, payee := "", narration := "",
                  links := [], tags := [], meta := [],
                  postings := [{ account := "A",
                                 amount := { number := 250, currency := "USD" },
                                 cost := none, price := none, meta := [],
                                 src := "s" }],
                  src := "t" },
           aupd
             (aupd [] "A" []
               (fun m => aupd m "USD" []
                 (fun lots => aupd lots none 0 (fun x => dAdd x 250))))
             "F" []
             (fun m => aupd m "USD" []
               (fun lots => aupd lots none 0 (fun x => dSub x 250))),
           ainsert c3PadFrom "A" { from_ := "F", currencies := ["USD"], index := 0 },
           [wPadPlaceholder].set 0
             { wPadPlaceholder with
               postings := wPadPlaceholder.postings ++
                 [{ account := "A",
                    amount := { number := 250, currency := "USD" },
                    cost := none, price := none, meta := [], src := "s" },
                  { account := "F",
                    amount := { number := dNeg 250, currency := "USD" },
                    cost := none, price := none, meta := [], src := "s" }] },
           []) :=
  ⟨by decide,
   pad_realization (wBalTxn 250) (wBalPosting 250)
     { number := 250, currency := "USD" } [] wTol c3PadFrom [wPadPlaceholder]
     c8Accounts { from_ := "F", currencies := [], index := 0 } (wAccInfo []) 250
     (by decide) (by decide) (by decide) (by decide) (by decide) (by decide)
     (by decide) (by decide) (Or.inl (by decide)) (by decide) (by decide)⟩

/-- C6 counterexample: on a running balance whose first lot-keyed entry
has the same sign as the posting while a later lot has the opposite sign,
`is_opening_new` answers `true` — the posting is processed as opening a
new position (here `posting_flow` creates the fresh lot `{3 USD, 7}`) —
although the balance does contain a lot with quantity of the opposite
sign, so the claimed iff fails. -/
theorem opening_despite_opposite_lot :
    is_opening_new 1 (some c6Lots) = true ∧
      ¬ noOppositeLot 1 (some c6Lots) ∧
      (posting_flow c6Posting 7 c6RB [] []).map (fun r => postResultCost r.1) =
        some (some (some { amount := { number := 3, currency := "USD" },
                           date := 7 })) := by
  refine ⟨by decide, ?_, by decide⟩
  intro h
  have h2 := h (some { amount := { number := 2, currency := "USD" }, date := 0 }, -1)
    (by simp [c6Lots]) rfl
  exact h2 (Or.inl ⟨by norm_num, by norm_num⟩)

/-- C6 amended: a posting with amount and cost is processed as opening a
new lot iff the first lot-keyed entry of its (account, currency) running
balance, in map iteration order, is absent or does not carry a quantity
of sign opposite to the posting's number (`is_opening_new` returns upon
the first lot-keyed entry instead of scanning all of them). -/
theorem is_opening_new_first_lot (p_number : Decimal)
    (rb : Option (List (Option UnitCost × Decimal))) :
    is_opening_new p_number rb = firstLotDecides p_number rb := by
  cases rb with
  | none => rfl
  | some l =>
    induction l with
    | nil => rfl
    | cons e rest ih =>
      obtain ⟨cost, number⟩ := e
      cases cost with
      | none =>
        simp only [is_opening_new, isOpeningLoop, Option.isNone_none, if_true]
        simp only [is_opening_new, firstLotDecides, Option.getD_some] at ih ⊢
        simpa using ih
      | some uc =>
        by_cases h : (number < 0 ∧ 0 ≤ p_number) ∨ (0 ≤ number ∧ p_number < 0)
        · simp [is_opening_new, isOpeningLoop, firstLotDecides, h]
        · simp [is_opening_new, isOpeningLoop, firstLotDecides, h]

theorem expand_lots_postings (account : Account) (cur : Currency) (meta : Meta)
    (src : Source) (holding pending : List (Option UnitCost × Decimal))
    (per : List (Currency × Decimal)) :
    (expand_lots account cur meta src holding pending per).2.2 =
      holding.filterMap (fun e => e.1.map (fun uc =>
        ({ account := account,
           amount := { number := dNeg e.2, currency := cur },
           cost := some uc, price := none, meta := meta, src := src } :
          Posting))) := by
  induction holding generalizing pending per with
  | nil => simp [expand_lots]
  | cons e rest ih =>
    obtain ⟨cost, n⟩ := e
    cases cost with
    | none => simp [expand_lots, ih]
    | some uc => simp [expand_lots, ih]

/-- C7: a closing posting whose cost literal is the empty `{}` (no basis,
no date) expands into one synthetic valid posting per existing lot — each
with amount the negation of that lot's held quantity and carrying that
lot's unit cost — exactly when the held quantities plus the posting's
number sum to zero exactly; otherwise one `Error`-level `NoMatch` error
is emitted, the post result is `Fail`, and `check_complete_txn` drops the
whole transaction.  (With no balance entry at all, a nonzero posting also
fails with `NoMatch`; a zero posting contributes nothing and no error.) -/
theorem close_all_expansion (posting : PostingDraft) (p_amount : Amount)
    (hcost : posting.cost = some { date := none, basis := none })
    (hamount : posting.amount = some p_amount) :
    (∀ holding pending per, dAdd (lotsTotal holding) p_amount.number = 0 →
      close_position posting (some holding) pending per =
        some (.Expanded (holding.filterMap (fun e => e.1.map (fun uc =>
          ({ account := posting.account,
             amount := { number := dNeg e.2, currency := p_amount.currency },
             cost := some uc, price := none, meta := posting.meta,
             src := posting.src } : Posting)))),
          (expand_lots posting.account p_amount.currency posting.meta
            posting.src holding pending per).1,
          (expand_lots posting.account p_amount.currency posting.meta
            posting.src holding pending per).2.1, [])) ∧
    (∀ holding pending per, dAdd (lotsTotal holding) p_amount.number ≠ 0 →
      close_position posting (some holding) pending per =
        some (.Fail, pending, per,
          [{ etype := .NoMatch, level := .Error,
             msg := "Account only has " ++ toString (lotsTotal holding) ++ " " ++
               p_amount.currency ++ ".",
             src := posting.src }])) ∧
    (∀ pending per, p_amount.number ≠ 0 →
      close_position posting none pending per =
        some (.Fail, pending, per,
          [{ etype := .NoMatch, level := .Error,
             msg := "Account has no " ++ p_amount.currency ++ ".",
             src := posting.src }])) ∧
    (∀ pending per, p_amount.number = 0 →
      close_position posting none pending per =
        some (.None, pending, per, [])) ∧
    (∀ txn running_balance tolerances holding, txn.postings = [posting] →
      (alookup running_balance posting.account).bind
        (fun m => alookup m p_amount.currency) = some holding →
      is_opening_new p_amount.number (some holding) = false →
      dAdd (lotsTotal holding) p_amount.number ≠ 0 →
      check_complete_txn txn running_balance tolerances =
        some (none,
          [{ etype := .NoMatch, level := .Error,
             msg := "Account only has " ++ toString (lotsTotal holding) ++ " " ++
               p_amount.currency ++ ".",
             src := posting.src }])) := by
  have hA : ∀ holding pending per,
      dAdd (lotsTotal holding) p_amount.number = 0 →
      close_position posting (some holding) pending per =
        some (.Expanded (holding.filterMap (fun e => e.1.map (fun uc =>
          ({ account := posting.account,
             amount := { number := dNeg e.2, currency := p_amount.currency },
             cost := some uc, price := none, meta := posting.meta,
             src := posting.src } : Posting)))),
          (expand_lots posting.account p_amount.currency posting.meta
            posting.src holding pending per).1,
          (expand_lots posting.account p_amount.currency posting.meta
            posting.src holding pending per).2.1, []) := by
    intro holding pending per hsum
    simp [close_position, hcost, hamount, hsum, expand_lots_postings]
  have hB : ∀ holding pending per,
      dAdd (lotsTotal holding) p_amount.number ≠ 0 →
      close_position posting (some holding) pending per =
        some (.Fail, pending, per,
          [{ etype := .NoMatch, level := .Error,
             msg := "Account only has " ++ toString (lotsTotal holding) ++ " " ++
               p_amount.currency ++ ".",
             src := posting.src }]) := by
    intro holding pending per hsum
    simp [close_position, hcost, hamount, hsum]
  refine ⟨hA, hB, ?_, ?_, ?_⟩
  · intro pending per hnz
    simp [close_position, hcost, hamount, hnz]
  · intro pending per hz
    simp [close_position, hcost, hamount, hz]
  · intro txn running_balance tolerances holding hps hrb hopen hsum
    unfold check_complete_txn
    rw [hps]
    unfold cct_postings posting_flow
    rw [hamount]
    simp only [hcost, hrb, hopen, Bool.false_eq_true, if_false]
    rw [hB holding _ _ hsum]
    simp [cct_postings]

theorem close_all_expansion_witness :
    dAdd (lotsTotal c7Holding) (-3) = 0 ∧
      close_position c7Posting (some c7Holding) [] [] =
        some (.Expanded (c7Holding.filterMap (fun e => e.1.map (fun uc =>
          ({ account := c7Posting.account,
             amount := { number := dNeg e.2, currency := "FOO" },
             cost := some uc, price := none, meta := c7Posting.meta,
             src := c7Posting.src } : Posting)))),
          (expand_lots c7Posting.account "FOO" c7Posting.meta c7Posting.src
            c7Holding [] []).1,
          (expand_lots c7Posting.account "FOO" c7Posting.meta c7Posting.src
            c7Holding [] []).2.1, []) :=
  ⟨by decide,
   (close_all_expansion c7Posting { number := -3, currency := "FOO" } rfl
     rfl).1 c7Holding [] [] (by decide)⟩

/-- C9: evaluation at the failing input.  `check_complete_txn` emits the
valid postings in processing order — here `["B", "A"]`, not sorted by
account name — because this version of the checker contains no
`sort_by` on the postings (the sibling implementation of the same
function in `lumi/src/parse/checker.rs` line 654 does sort them, which is
the documented intent). -/
theorem postings_emitted_unsorted :
    (check_complete_txn c9Txn [] wTol).map (fun r =>
      r.1.map (fun pr => pr.1.map (fun t => t.postings.map Posting.account))) =
      some (some [["B", "A"]]) ∧
    ["B", "A"] ≠ ["A", "B"] := by
  exact ⟨by decide, by decide⟩

theorem alookup_mem {α β : Type} [DecidableEq α] (m : List (α × β)) (k : α)
    (v : β) (h : alookup m k = some v) : (k, v) ∈ m := by
  induction m with
  | nil => simp [alookup] at h
  | cons e rest ih =>
    obtain ⟨k1, v1⟩ := e
    by_cases h1 : k1 = k
    · subst h1
      simp [alookup] at h
      simp [h]
    · simp only [alookup, if_neg h1] at h
      exact List.mem_cons_of_mem _ (ih h)

theorem mem_alookup_of_nodup {α β : Type} [DecidableEq α] (m : List (α × β))
    (k : α) (v : β) (hmem : (k, v) ∈ m) (hnodup : (m.map Prod.fst).Nodup) :
    alookup m k = some v := by
  induction m with
  | nil => simp at hmem
  | cons e rest ih =>
    obtain ⟨k1, v1⟩ := e
    simp only [List.map_cons, List.nodup_cons] at hnodup
    rcases List.mem_cons.mp hmem with h | h
    · have hk : k1 = k := (Prod.ext_iff.mp h.symm).1
      have hv : v1 = v := (Prod.ext_iff.mp h.symm).2
      subst hk
      subst hv
      simp [alookup]
    · have hk : k1 ≠ k := fun hh =>
        hnodup.1 (List.mem_map.mpr ⟨(k, v), h, hh.symm⟩)
      simp only [alookup, if_neg hk]
      exact ih h hnodup.2

theorem map_set_key {α β : Type} (f : α → β) (l : List α) (i : Nat) (v : α)
    (h : ∀ hi : i < l.length, f v = f (l.get ⟨i, hi⟩)) :
    (l.set i v).map f = l.map f := by
  induction l generalizing i with
  | nil => simp
  | cons x xs ih =>
    cases i with
    | zero =>
      simp only [List.set_cons_zero, List.map_cons]
      rw [h (by simp)]
      rfl
    | succ j =>
      simp only [List.set_cons_succ, List.map_cons]
      rw [ih j (fun hj => h (by simpa using Nat.succ_lt_succ hj))]

theorem try_padding_ok_shape (dest : Account) (n : Decimal) (cur : Currency)
    (pf : List (Account × PadFromInfo)) (vt : List Transaction)
    (va : List (Account × AccountInfo)) (src : Source) (afrom : Account)
    (pf2 : List (Account × PadFromInfo)) (vt2 : List Transaction)
    (h : try_padding dest n cur pf vt va src = some (.ok (afrom, pf2, vt2))) :
    ∃ i old p1 p2, vt[i]? = some old ∧
      vt2 = vt.set i { old with postings := old.postings ++ [p1, p2] } ∧
      p1.cost = none ∧ p1.price = none ∧ p2.cost = none ∧ p2.price = none ∧
      p1.amount.currency = cur ∧ p2.amount.currency = cur ∧
      p2.amount.number = dNeg p1.amount.number := by
  unfold try_padding at h
  cases hpd : alookup pf dest with
  | none => simp [hpd] at h
  | some info =>
    simp only [hpd] at h
    cases hfi : alookup va info.from_ with
    | none => simp [hfi] at h
    | some fi =>
      simp only [hfi] at h
      by_cases hcond : fi.currencies.length > 0 ∧ cur ∉ fi.currencies
      · simp [hcond] at h
      · rw [if_neg hcond] at h
        by_cases hmem : cur ∈ info.currencies
        · simp [sinsert, hmem] at h
        · simp only [sinsert, if_neg hmem] at h
          cases hidx : vt[info.index]? with
          | none => simp [hidx] at h
          | some old =>
            simp only [hidx, if_true] at h
            simp only [Option.some.injEq, Except.ok.injEq, Prod.mk.injEq] at h
            refine ⟨info.index, old,
              { account := dest, amount := { number := n, currency := cur },
                cost := none, price := none, meta := [], src := src },
              { account := info.from_,
                amount := { number := dNeg n, currency := cur },
                cost := none, price := none, meta := [], src := src },
              hidx, ?_, rfl, rfl, rfl, rfl, rfl, rfl, rfl⟩
            exact h.2.2.symm

theorem effSum_append_pair (t : Transaction) (p1 p2 : Posting)
    (h1c : p1.cost = none) (h1p : p1.price = none)
    (h2c : p2.cost = none) (h2p : p2.price = none)
    (hcur : p2.amount.currency = p1.amount.currency)
    (hnum : p2.amount.number = dNeg p1.amount.number) (c : Currency) :
    effSum { t with postings := t.postings ++ [p1, p2] } c = effSum t c := by
  simp only [effSum, List.map_append, dSum_eq, List.sum_append]
  by_cases hc : p1.amount.currency = c <;>
    simp [effNumber, claimedNumber, h1c, h1p, h2c, h2p, hcur, hnum, dNeg_eq, hc]

theorem check_balance_posting_txns (posting : PostingDraft)
    (tol : List (String × Decimal)) (va : List (Account × AccountInfo))
    (vp : List Posting) (rb : BalanceSheet) (pf : List (Account × PadFromInfo))
    (vt : List Transaction) (errs : List Error)
    (out : List Posting × BalanceSheet × List (Account × PadFromInfo) ×
      List Transaction × List Error)
    (h : check_balance_posting posting tol va vp rb pf vt errs = some out) :
    out.2.2.2.1.map txnPair = vt.map txnPair ∧
    ∀ tols2 : List (String × Decimal),
      (∀ t ∈ vt, t.flag ≠ .Balance → ∀ c, BalancedIn tols2 t c) →
      ∀ t ∈ out.2.2.2.1, t.flag ≠ .Balance → ∀ c, BalancedIn tols2 t c := by
  unfold check_balance_posting at h
  by_cases h1 : posting.cost.isSome ∨ posting.price.isSome
  · rw [if_pos h1] at h
    cases Option.some.inj h
    exact ⟨rfl, fun tols2 hInv => hInv⟩
  · rw [if_neg h1] at h
    cases ham : posting.amount with
    | none =>
      simp only [ham] at h
      cases Option.some.inj h
      exact ⟨rfl, fun tols2 hInv => hInv⟩
    | some p_amount =>
      simp only [ham] at h
      cases hew : equal_within
          (holdingTotal rb posting.account p_amount.currency) p_amount.number
          p_amount.currency tol with
      | true =>
        simp only [hew, if_true] at h
        cases Option.some.inj h
        exact ⟨rfl, fun tols2 hInv => hInv⟩
      | false =>
        simp only [hew, Bool.false_eq_true, if_false] at h
        cases htp : try_padding posting.account
            (dSub p_amount.number
              (holdingTotal rb posting.account p_amount.currency))
            p_amount.currency pf vt va posting.src with
        | none =>
          rw [htp] at h
          simp at h
        | some res =>
          rw [htp] at h
          cases res with
          | error oe =>
            cases oe with
            | none =>
              cases Option.some.inj h
              exact ⟨rfl, fun tols2 hInv => hInv⟩
            | some e =>
              cases Option.some.inj h
              exact ⟨rfl, fun tols2 hInv => hInv⟩
          | ok triple =>
            obtain ⟨afrom, pf2, vt2⟩ := triple
            obtain ⟨i, old, p1, p2, hidx, hset, h1c, h1p, h2c, h2p, hc1, hc2,
              hnum⟩ := try_padding_ok_shape _ _ _ _ _ _ _ _ _ _ htp
            cases Option.some.inj h
            have hold_mem : old ∈ vt := by
              have := List.getElem?_eq_some.mp hidx
              obtain ⟨hlen, hget⟩ := this
              exact hget ▸ List.getElem_mem hlen
            constructor
            · show vt2.map txnPair = vt.map txnPair
              rw [hset]
              refine map_set_key txnPair vt i _ ?_
              intro hi
              have : vt.get ⟨i, hi⟩ = old := by
                have := List.getElem?_eq_some.mp hidx
                obtain ⟨hlen, hget⟩ := this
                simpa [List.get_eq_getElem] using hget
              rw [this]
              rfl
            · intro tols2 hInv t ht hflag c
              rw [hset] at ht
              rcases List.mem_or_eq_of_mem_set ht with hmem | rfl
              · exact hInv t hmem hflag c
              · have hflag_old : old.flag ≠ .Balance := hflag
                have hbal := hInv old hold_mem hflag_old c
                have heq := effSum_append_pair old p1 p2 h1c h1p h2c h2p
                  (hc2.trans hc1.symm) hnum c
                unfold BalancedIn at hbal ⊢
                rw [heq]
                exact hbal

theorem check_balance_loop_txns (postings : List PostingDraft)
    (tol : List (String × Decimal)) (va : List (Account × AccountInfo))
    (vp : List Posting) (rb : BalanceSheet) (pf : List (Account × PadFromInfo))
    (vt : List Transaction) (errs : List Error)
    (out : List Posting × BalanceSheet × List (Account × PadFromInfo) ×
      List Transaction × List Error)
    (h : check_balance_loop postings tol va vp rb pf vt errs = some out) :
    out.2.2.2.1.map txnPair = vt.map txnPair ∧
    ∀ tols2 : List (String × Decimal),
      (∀ t ∈ vt, t.flag ≠ .Balance → ∀ c, BalancedIn tols2 t c) →
      ∀ t ∈ out.2.2.2.1, t.flag ≠ .Balance → ∀ c, BalancedIn tols2 t c := by
  induction postings generalizing vp rb pf vt errs with
  | nil =>
    unfold check_balance_loop at h
    cases Option.some.inj h
    exact ⟨rfl, fun tols2 hInv => hInv⟩
  | cons posting rest ih =>
    unfold check_balance_loop at h
    cases hstep : check_balance_posting posting tol va vp rb pf vt errs with
    | none =>
      rw [hstep] at h
      simp at h
    | some mid =>
      rw [hstep] at h
      obtain ⟨vp2, rb2, pf2, vt2, errs2⟩ := mid
      have hstep2 := check_balance_posting_txns posting tol va vp rb pf vt errs
        _ hstep
      have hrest := ih vp2 rb2 pf2 vt2 errs2 h
      refine ⟨hrest.1.trans hstep2.1, ?_⟩
      intro tols2 hInv
      exact hrest.2 tols2 (hstep2.2 tols2 hInv)

theorem check_balance_txns (txn : TxnDraft) (rb : BalanceSheet)
    (tol : List (String × Decimal)) (pf : List (Account × PadFromInfo))
    (vt : List Transaction) (va : List (Account × AccountInfo))
    (out : Option Transaction × BalanceSheet × List (Account × PadFromInfo) ×
      List Transaction × List Error)
    (h : check_balance txn rb tol pf vt va = some out) :
    out.2.2.2.1.map txnPair = vt.map txnPair ∧
    (∀ t', out.1 = some t' → t'.date = txn.date ∧ t'.flag = txn.flag) ∧
    ∀ tols2 : List (String × Decimal),
      (∀ t ∈ vt, t.flag ≠ .Balance → ∀ c, BalancedIn tols2 t c) →
      ∀ t ∈ out.2.2.2.1, t.flag ≠ .Balance → ∀ c, BalancedIn tols2 t c := by
  unfold check_balance at h
  cases hloop : check_balance_loop txn.postings tol va [] rb pf vt [] with
  | none =>
    rw [hloop] at h
    simp at h
  | some res =>
    obtain ⟨vp2, rb2, pf2, vt2, errs2⟩ := res
    simp only [hloop] at h
    have hl := check_balance_loop_txns txn.postings tol va [] rb pf vt [] _ hloop
    by_cases hlen : vp2.length > 0
    · rw [if_pos hlen] at h
      cases Option.some.inj h
      exact ⟨hl.1, fun t' ht' => by cases Option.some.inj ht'; exact ⟨rfl, rfl⟩,
        hl.2⟩
    · rw [if_neg hlen] at h
      cases Option.some.inj h
      refine ⟨hl.1, ?_, hl.2⟩
      intro t0 ht0
      cases ht0

theorem keyLeB_refl (a : Nat × Nat) : keyLeB a a = true := by
  simp [keyLeB]

theorem keyLeB_trans (a b c : Nat × Nat) (h1 : keyLeB a b = true)
    (h2 : keyLeB b c = true) : keyLeB a c = true := by
  simp only [keyLeB, decide_eq_true_eq, Bool.decide_or, Bool.or_eq_true,
    decide_eq_true_eq, Bool.decide_and, Bool.and_eq_true] at h1 h2 ⊢
  omega

theorem keyLeB_total (a b : Nat × Nat) : keyLeB a b = true ∨ keyLeB b a = true := by
  simp only [keyLeB, decide_eq_true_eq, Bool.decide_or, Bool.or_eq_true,
    decide_eq_true_eq, Bool.decide_and, Bool.and_eq_true]
  omega

instance (b : Bool) : IsTotal TxnDraft (draft_le b) :=
  ⟨fun t1 t2 => keyLeB_total (txn_sort_key b t1) (txn_sort_key b t2)⟩

instance (b : Bool) : IsTrans TxnDraft (draft_le b) :=
  ⟨fun t1 t2 t3 h1 h2 =>
    keyLeB_trans (txn_sort_key b t1) (txn_sort_key b t2) (txn_sort_key b t3) h1 h2⟩

theorem pairwise_replicate_of_refl {α : Type} (R : α → α → Prop) (a : α)
    (n : Nat) (h : R a a) : List.Pairwise R (List.replicate n a) := by
  induction n with
  | zero => simp
  | succ m ih =>
    rw [List.replicate_succ]
    refine List.pairwise_cons.mpr ⟨?_, ih⟩
    intro b hb
    rw [List.eq_of_mem_replicate hb]
    exact h

theorem cct_some_shape (txn : TxnDraft) (rb : BalanceSheet)
    (tol : List (String × Decimal)) (vec : List Transaction)
    (bc : BalanceSheet) (errs : List Error)
    (h : check_complete_txn txn rb tol = some (some (vec, bc), errs)) :
    ∃ ps, vec = [{ date := txn.date, flag := txn.flag, payee := txn.payee,
                   narration := txn.narration, links := txn.links,
                   tags := txn.tags, meta := txn.meta, postings := ps,
                   src := txn.src }] := by
  unfold check_complete_txn at h
  cases hloop : cct_postings txn.postings txn.date rb none [] [] [] [] with
  | none =>
    rw [hloop] at h
    simp at h
  | some lr =>
    cases lr with
    | dropped errs0 =>
      simp only [hloop] at h
      simp at h
    | ok inc valid bc0 pcc errs0 =>
      simp only [hloop] at h
      cases hcp : complete_posting inc
          (pcc.filter (fun e => !(equal_within e.2 0 e.1 tol))) txn.date txn.src
          valid bc0 with
      | none =>
        rw [hcp] at h
        simp at h
      | some r =>
        cases r with
        | error e =>
          rw [hcp] at h
          simp at h
        | ok pair =>
          obtain ⟨valid2, bc2⟩ := pair
          rw [hcp] at h
          simp only [Option.some.injEq, Prod.mk.injEq] at h
          exact ⟨valid2, h.1.1.symm⟩

theorem replay_step_keys (va : List (Account × AccountInfo))
    (tol : List (String × Decimal)) (st : ReplayState) (txn : TxnDraft)
    (st2 : ReplayState) (h : replay_step va tol st txn = some st2) :
    ∃ n, st2.valid_txns.map txnPair =
      st.valid_txns.map txnPair ++ List.replicate n (txn.date, txn.flag) := by
  unfold replay_step at h
  by_cases herr : txn.postings.filterMap (fun posting =>
      match check_posting posting txn.date va with
      | .error msg =>
        some ({ msg := msg, src := posting.src, level := .Error,
                etype := .Account } : Error)
      | .ok _ => none) ≠ []
  · rw [if_pos herr] at h
    cases Option.some.inj h
    exact ⟨0, by simp⟩
  · rw [if_neg herr] at h
    cases hflag : txn.flag with
    | Balance =>
      simp only [hflag] at h
      cases hcb : check_balance txn st.running_balance tol
          (invalidate_pads txn.postings st.pad_from st.pad_to).1 st.valid_txns
          va with
      | none =>
        rw [hcb] at h
        simp at h
      | some out =>
        obtain ⟨outTxn, rb2, pf2, vt2, newErrs⟩ := out
        simp only [hcb] at h
        have hcbt := check_balance_txns txn st.running_balance tol
          (invalidate_pads txn.postings st.pad_from st.pad_to).1 st.valid_txns
          va _ hcb
        cases Option.some.inj h
        cases outTxn with
        | none =>
          refine ⟨0, ?_⟩
          simpa using hcbt.1
        | some t' =>
          refine ⟨1, ?_⟩
          have hpair := hcbt.2.1 t' rfl
          simp only [List.map_append]
          rw [hcbt.1]
          simp [txnPair, hpair.1, hpair.2, hflag, List.replicate]
    | Pending =>
      simp only [hflag] at h
      cases hcct : check_complete_txn txn st.running_balance tol with
      | none =>
        rw [hcct] at h
        simp at h
      | some res =>
        obtain ⟨result, newErrs⟩ := res
        simp only [hcct] at h
        cases result with
        | none =>
          cases Option.some.inj h
          exact ⟨0, by simp⟩
        | some pair =>
          obtain ⟨vec, changes⟩ := pair
          obtain ⟨ps, hvec⟩ := cct_some_shape txn st.running_balance tol vec
            changes newErrs hcct
          cases Option.some.inj h
          refine ⟨1, ?_⟩
          simp [hvec, txnPair, hflag, List.replicate]
    | Posted =>
      simp only [hflag] at h
      cases hcct : check_complete_txn txn st.running_balance tol with
      | none =>
        rw [hcct] at h
        simp at h
      | some res =>
        obtain ⟨result, newErrs⟩ := res
        simp only [hcct] at h
        cases result with
        | none =>
          cases Option.some.inj h
          exact ⟨0, by simp⟩
        | some pair =>
          obtain ⟨vec, changes⟩ := pair
          obtain ⟨ps, hvec⟩ := cct_some_shape txn st.running_balance tol vec
            changes newErrs hcct
          cases Option.some.inj h
          refine ⟨1, ?_⟩
          simp [hvec, txnPair, hflag, List.replicate]
    | Pad =>
      simp only [hflag] at h
      cases hps : txn.postings with
      | nil =>
        simp only [hps] at h
        cases Option.some.inj h
        exact ⟨0, by simp⟩
      | cons p0 rest0 =>
        cases rest0 with
        | nil =>
          simp only [hps] at h
          cases Option.some.inj h
          exact ⟨0, by simp⟩
        | cons p1 rest1 =>
          cases rest1 with
          | nil =>
            simp only [hps] at h
            cases Option.some.inj h
            refine ⟨1, ?_⟩
            simp [txnPair, hflag, List.replicate]
          | cons p2 rest2 =>
            simp only [hps] at h
            cases Option.some.inj h
            exact ⟨0, by simp⟩

theorem replay_sorted (va : List (Account × AccountInfo))
    (tol : List (String × Decimal)) (bade : Bool) :
    ∀ (txns : List TxnDraft) (st st2 : ReplayState),
      replay va tol txns st = some st2 →
      List.Pairwise (draft_le bade) txns →
      List.Pairwise (fun a b => keyLeB (pairKey bade a) (pairKey bade b) = true)
        (st.valid_txns.map txnPair) →
      (∀ pr ∈ st.valid_txns.map txnPair, ∀ d ∈ txns,
        keyLeB (pairKey bade pr) (txn_sort_key bade d) = true) →
      List.Pairwise (fun a b => keyLeB (pairKey bade a) (pairKey bade b) = true)
        (st2.valid_txns.map txnPair) := by
  intro txns
  induction txns with
  | nil =>
    intro st st2 h _ hpw _
    unfold replay at h
    cases Option.some.inj h
    exact hpw
  | cons t rest ih =>
    intro st st2 h hsorted hpw hbound
    unfold replay at h
    cases hstep : replay_step va tol st t with
    | none =>
      rw [hstep] at h
      simp at h
    | some stm =>
      rw [hstep] at h
      obtain ⟨n, hkeys⟩ := replay_step_keys va tol st t stm hstep
      have hsorted_rest := (List.pairwise_cons.mp hsorted).2
      have hhead := (List.pairwise_cons.mp hsorted).1
      refine ih stm st2 h hsorted_rest ?_ ?_
      · rw [hkeys]
        rw [List.pairwise_append]
        refine ⟨hpw, pairwise_replicate_of_refl _ _ n (keyLeB_refl _), ?_⟩
        intro a ha b hb
        rw [List.eq_of_mem_replicate hb]
        exact hbound a ha t (List.mem_cons_self t rest)
      · intro pr hpr d hd
        rw [hkeys] at hpr
        rcases List.mem_append.mp hpr with hpr | hpr
        · exact hbound pr hpr d (List.mem_cons_of_mem t hd)
        · rw [List.eq_of_mem_replicate hpr]
          exact hhead d hd

/-- C2: `into_ledger` sorts the transactions before replay (a stable sort
by `txn_sort_key`) and the replay preserves that order in the returned
`Ledger.txns`: the emitted transactions are pairwise ordered by
`(date, flag)` under the configured key — `(date, flag as u8)` under the
enum order `Pending < Posted < Pad < Balance` when option
`balance_at_day_end` parses to `true`, else
`(date, (flag as u8 + 1) % 4)` — and under the default key, on any given
date, every `Balance` transaction sorts before every `Pending`, `Posted`
and `Pad` transaction. -/
theorem ledger_txns_sorted (draft : LedgerDraft) (ledger : Ledger)
    (errs : List Error) (h : into_ledger draft = some (ledger, errs)) :
    List.Pairwise (fun t1 t2 =>
      keyLeB (txn_key (optionBalanceAtDayEnd draft.options) t1)
        (txn_key (optionBalanceAtDayEnd draft.options) t2) = true)
      ledger.txns ∧
    (∀ t : TxnDraft, txn_sort_key true t = (t.date, t.flag.toU8)) ∧
    (∀ t : TxnDraft, txn_sort_key false t = (t.date, (t.flag.toU8 + 1) % 4)) ∧
    (∀ f : TxnFlag, f ≠ .Balance →
      (TxnFlag.Balance.toU8 + 1) % 4 < (f.toU8 + 1) % 4) := by
  refine ⟨?_, fun t => rfl, fun t => rfl, ?_⟩
  case refine_2 =>
    intro f hf
    cases f
    · decide
    · decide
    · decide
    · exact absurd rfl hf
  simp only [into_ledger] at h
  cases hrep : replay (check_accounts draft.accounts).1
      (extract_tolerance draft.commodities draft.options).1
      (List.insertionSort (draft_le (optionBalanceAtDayEnd draft.options))
        draft.txns)
      { errors := (check_accounts draft.accounts).2 ++
          (extract_tolerance draft.commodities draft.options).2,
        valid_txns := [], running_balance := [], pad_from := [],
        pad_to := [] } with
  | none =>
    rw [hrep] at h
    simp at h
  | some stf =>
    rw [hrep] at h
    simp only [Option.some.injEq, Prod.mk.injEq] at h
    have hsorted := List.sorted_insertionSort
      (draft_le (optionBalanceAtDayEnd draft.options)) draft.txns
    have hfinal := replay_sorted (check_accounts draft.accounts).1
      (extract_tolerance draft.commodities draft.options).1
      (optionBalanceAtDayEnd draft.options)
      (List.insertionSort (draft_le (optionBalanceAtDayEnd draft.options))
        draft.txns) _ stf hrep hsorted (by simp) (by simp)
    have hledger : ledger.txns = stf.valid_txns := by
      rw [← h.1]
    rw [hledger]

    rw [List.pairwise_map] at hfinal
    exact hfinal

theorem ledger_txns_sorted_witness :
    into_ledger wC2Draft = some wC2Res ∧
      List.Pairwise (fun t1 t2 =>
        keyLeB (txn_key (optionBalanceAtDayEnd wC2Draft.options) t1)
          (txn_key (optionBalanceAtDayEnd wC2Draft.options) t2) = true)
        wC2Res.1.txns :=
  ⟨rfl, (ledger_txns_sorted wC2Draft wC2Res.1 wC2Res.2 rfl).1⟩

theorem keyed_sum_zero (l : List (Currency × Decimal)) (c : Currency)
    (g : Decimal → Decimal) (h : ∀ e ∈ l, e.1 ≠ c) :
    (l.map (fun e => if e.1 = c then g e.2 else 0)).sum = 0 := by
  induction l with
  | nil => simp
  | cons e rest ih =>
    simp only [List.map_cons, List.sum_cons]
    rw [if_neg (h e (List.mem_cons_self e rest)), ih
      (fun x hx => h x (List.mem_cons_of_mem e hx))]
    simp

theorem keyed_sum_single (l : List (Currency × Decimal)) (c : Currency)
    (n : Decimal) (g : Decimal → Decimal)
    (hnodup : (l.map Prod.fst).Nodup) (hmem : (c, n) ∈ l) :
    (l.map (fun e => if e.1 = c then g e.2 else 0)).sum = g n := by
  induction l with
  | nil => simp at hmem
  | cons e rest ih =>
    obtain ⟨k, v⟩ := e
    simp only [List.map_cons, List.nodup_cons] at hnodup
    simp only [List.map_cons, List.sum_cons]
    rcases List.mem_cons.mp hmem with h | h
    · have hk2 : k = c := (Prod.ext_iff.mp h.symm).1
      have hv : v = n := (Prod.ext_iff.mp h.symm).2
      rw [if_pos hk2, hv]
      have hrest : ∀ x ∈ rest, x.1 ≠ c := by
        intro x hx hxc
        exact hnodup.1 (hk2 ▸ hxc ▸ List.mem_map.mpr ⟨x, hx, rfl⟩)
      rw [keyed_sum_zero rest c g hrest]
      simp
    · have hk : k ≠ c := by
        intro hh
        exact hnodup.1 (hh ▸ List.mem_map.mpr ⟨(c, n), h, rfl⟩)
      rw [if_neg hk, ih hnodup.2 h]
      simp

theorem lookupD_aupd_dAdd (m : List (Currency × Decimal)) (k : Currency)
    (v : Decimal) (c : Currency) :
    lookupD (aupd m k 0 (fun x => dAdd x v)) c =
      lookupD m c + (if k = c then v else 0) := by
  unfold lookupD
  rw [alookup_aupd]
  by_cases h : c = k
  · subst h
    simp [dAdd_eq]
  · rw [if_neg h, if_neg (fun hh => h hh.symm)]
    simp

theorem lookupD_aupd_dSub (m : List (Currency × Decimal)) (k : Currency)
    (v : Decimal) (c : Currency) :
    lookupD (aupd m k 0 (fun x => dSub x v)) c =
      lookupD m c - (if k = c then v else 0) := by
  unfold lookupD
  rw [alookup_aupd]
  by_cases h : c = k
  · subst h
    simp [dSub_eq]
  · rw [if_neg h, if_neg (fun hh => h hh.symm)]
    simp

theorem to_unit_cost_currency (b : CostBasis) (n : Decimal) (a : Amount)
    (h : b.to_unit_cost n = some a) : a.currency = b.currency := by
  cases b with
  | Total t =>
    simp only [CostBasis.to_unit_cost] at h
    by_cases hz : n = 0
    · simp [hz] at h
    · rw [if_neg hz] at h
      cases Option.some.inj h
      rfl
  | Unit u =>
    simp only [CostBasis.to_unit_cost] at h
    cases Option.some.inj h
    rfl

theorem expand_lots_sum (a : Account) (cur : Currency) (meta : Meta)
    (src : Source) (lots pending : List (Option UnitCost × Decimal))
    (per : List (Currency × Decimal)) :
    (∀ c, (((expand_lots a cur meta src lots pending per).2.2).map
        (fun p => effNumber p c)).sum =
      lookupD (expand_lots a cur meta src lots pending per).2.1 c -
        lookupD per c) ∧
    ((per.map Prod.fst).Nodup →
      (((expand_lots a cur meta src lots pending per).2.1).map Prod.fst).Nodup) := by
  induction lots generalizing pending per with
  | nil =>
    constructor
    · intro c
      simp [expand_lots]
    · intro h
      simpa [expand_lots] using h
  | cons e rest ih =>
    obtain ⟨cost, hn⟩ := e
    cases cost with
    | none =>
      simp only [expand_lots]
      exact ih pending per
    | some uc =>
      simp only [expand_lots]
      constructor
      · intro c
        have ihs := (ih (aupd pending (some uc) 0 (fun x => dSub x hn))
          (aupd per uc.amount.currency 0
            (fun x => dSub x (dMul uc.amount.number hn)))).1 c
        simp only [List.map_cons, List.sum_cons]
        rw [ihs, lookupD_aupd_dSub]
        by_cases hc : uc.amount.currency = c
        · simp only [effNumber, if_pos hc, hc, dMul_eq, dNeg_eq, if_pos]
          ring
        · simp only [effNumber, if_neg hc]
          ring
      · intro h
        exact (ih (aupd pending (some uc) 0 (fun x => dSub x hn))
          (aupd per uc.amount.currency 0
            (fun x => dSub x (dMul uc.amount.number hn)))).2
          (aupd_keys_nodup _ _ _ _ h)

theorem open_new_position_sum (posting : PostingDraft) (td : Date)
    (pending : List (Option UnitCost × Decimal))
    (per : List (Currency × Decimal))
    (out : PostResult × List (Option UnitCost × Decimal) ×
      List (Currency × Decimal))
    (h : open_new_position posting td pending per = some out) :
    (∀ c, ((resPostings out.1).map (fun p => effNumber p c)).sum =
      lookupD out.2.2 c - lookupD per c) ∧
    ((per.map Prod.fst).Nodup → (out.2.2.map Prod.fst).Nodup) := by
  unfold open_new_position at h
  cases hcl : posting.cost with
  | none => simp [hcl] at h
  | some cost_literal =>
    simp only [hcl] at h
    cases hb : cost_literal.basis with
    | none =>
      simp only [hb] at h
      cases Option.some.inj h
      exact ⟨fun c => by simp [resPostings], fun hn => hn⟩
    | some cost_basis =>
      cases ham : posting.amount with
      | none => cases cost_basis <;> simp [hb, ham] at h
      | some p_amount =>
        cases cost_basis with
        | Total total_amount =>
          simp only [hb, ham] at h
          by_cases hz : p_amount.number = 0
          · simp [hz] at h
          · rw [if_neg hz] at h
            cases Option.some.inj h
            constructor
            · intro c
              rw [lookupD_aupd_dAdd]
              by_cases hc : total_amount.currency = c
              · simp only [resPostings, List.map_cons, List.map_nil,
                  List.sum_cons, List.sum_nil, effNumber, if_pos hc, hc,
                  if_pos]
                rw [dMul_eq, dDiv_eq, div_mul_cancel₀ _ hz]
                ring
              · simp only [resPostings, List.map_cons, List.map_nil,
                  List.sum_cons, List.sum_nil, effNumber, if_neg hc]
                ring
            · exact fun hn => aupd_keys_nodup _ _ _ _ hn
        | Unit unit_amount =>
          simp only [hb, ham] at h
          cases Option.some.inj h
          constructor
          · intro c
            rw [lookupD_aupd_dAdd]
            by_cases hc : unit_amount.currency = c
            · simp only [resPostings, List.map_cons, List.map_nil,
                List.sum_cons, List.sum_nil, effNumber, if_pos hc, hc, if_pos]
              ring
            · simp only [resPostings, List.map_cons, List.map_nil,
                List.sum_cons, List.sum_nil, effNumber, if_neg hc]
              ring
          · exact fun hn => aupd_keys_nodup _ _ _ _ hn

theorem close_position_sum (posting : PostingDraft)
    (rb : Option (List (Option UnitCost × Decimal)))
    (pending : List (Option UnitCost × Decimal))
    (per : List (Currency × Decimal))
    (out : PostResult × List (Option UnitCost × Decimal) ×
      List (Currency × Decimal) × List Error)
    (h : close_position posting rb pending per = some out) :
    (∀ c, ((resPostings out.1).map (fun p => effNumber p c)).sum =
      lookupD out.2.2.1 c - lookupD per c) ∧
    ((per.map Prod.fst).Nodup → (out.2.2.1.map Prod.fst).Nodup) := by
  unfold close_position at h
  split at h
  all_goals try simp at h
  rename_i cost_literal p_amount hcl ham
  split at h
  · split at h
    · rename_i holding
      split at h
      · cases Option.some.inj h
        constructor
        · intro c
          simpa [resPostings] using
            (expand_lots_sum posting.account p_amount.currency posting.meta
              posting.src holding pending per).1 c
        · exact (expand_lots_sum posting.account p_amount.currency posting.meta
            posting.src holding pending per).2
      · cases Option.some.inj h
        exact ⟨fun c => by simp [resPostings], fun hn => hn⟩
    · split at h
      · cases Option.some.inj h
        exact ⟨fun c => by simp [resPostings], fun hn => hn⟩
      · cases Option.some.inj h
        exact ⟨fun c => by simp [resPostings], fun hn => hn⟩
  · split at h
    · simp at h
    · rename_i basis date hb hd ucm uca htu
      split at h
      · cases Option.some.inj h
        exact ⟨fun c => by simp [resPostings], fun hn => hn⟩
      · cases Option.some.inj h
        have hcur := to_unit_cost_currency _ _ _ htu
        refine ⟨fun c => ?_, fun hn => aupd_keys_nodup _ _ _ _ hn⟩
        rw [lookupD_aupd_dAdd]
        by_cases hc : basis.currency = c
        · simp [resPostings, effNumber, hcur, hc]
        · simp [resPostings, effNumber, hcur, hc]
  · split at h
    · simp at h
    · rename_i ucm uca hucm
      split at h
      · cases Option.some.inj h
        exact ⟨fun c => by simp [resPostings], fun hn => hn⟩
      · split at h
        · simp at h
        · rename_i muc hnum unit_cost hmuc
          split at h
          · cases Option.some.inj h
            exact ⟨fun c => by simp [resPostings], fun hn => hn⟩
          · cases Option.some.inj h
            refine ⟨fun c => ?_, fun hn => aupd_keys_nodup _ _ _ _ hn⟩
            rw [lookupD_aupd_dAdd]
            by_cases hc : unit_cost.amount.currency = c
            · simp [resPostings, effNumber, hc]
            · simp [resPostings, effNumber, hc]
      · cases Option.some.inj h
        exact ⟨fun c => by simp [resPostings], fun hn => hn⟩

theorem posting_flow_sum (posting : PostingDraft) (td : Date)
    (rb : BalanceSheet) (bc : BalanceSheet) (pcc : List (Currency × Decimal))
    (out : PostResult × BalanceSheet × List (Currency × Decimal) × List Error)
    (h : posting_flow posting td rb bc pcc = some out) :
    (∀ c, ((resPostings out.1).map (fun p => effNumber p c)).sum =
      lookupD out.2.2.1 c - lookupD pcc c) ∧
    ((pcc.map Prod.fst).Nodup → (out.2.2.1.map Prod.fst).Nodup) := by
  unfold posting_flow at h
  split at h
  · cases Option.some.inj h
    exact ⟨fun c => by simp [resPostings], fun hn => hn⟩
  · rename_i p_amount ham
    simp only [] at h
    split at h
    · split at h
      · rw [Option.map_eq_some'] at h
        obtain ⟨r, hr, hout⟩ := h
        cases hout
        exact ⟨fun c => (open_new_position_sum _ _ _ _ _ hr).1 c,
          (open_new_position_sum _ _ _ _ _ hr).2⟩
      · rw [Option.map_eq_some'] at h
        obtain ⟨r, hr, hout⟩ := h
        cases hout
        exact ⟨fun c => (close_position_sum _ _ _ _ _ hr).1 c,
          (close_position_sum _ _ _ _ _ hr).2⟩
    · cases Option.some.inj h
      refine ⟨fun c => ?_, fun hn => aupd_keys_nodup _ _ _ _ hn⟩
      cases hpr : posting.price with
      | none =>
        simp only [hpr]
        rw [lookupD_aupd_dAdd]
        by_cases hc : p_amount.currency = c
        · simp [resPostings, effNumber, claimedNumber, hpr, hc]
        · simp [resPostings, effNumber, claimedNumber, hpr, hc]
      | some pr =>
        cases pr with
        | Unit u =>
          simp only [hpr]
          rw [lookupD_aupd_dAdd]
          by_cases hc : u.currency = c
          · simp [resPostings, effNumber, claimedNumber, hpr, hc]
          · simp [resPostings, effNumber, claimedNumber, hpr, hc]
        | Total tA =>
          simp only [hpr]
          by_cases hneg : p_amount.number < 0
          · rw [if_pos hneg, lookupD_aupd_dAdd]
            by_cases hc : tA.currency = c
            · simp [resPostings, effNumber, claimedNumber, hpr, hc, hneg]
            · simp [resPostings, effNumber, claimedNumber, hpr, hc]
          · rw [if_neg hneg, lookupD_aupd_dAdd]
            by_cases hc : tA.currency = c
            · simp [resPostings, effNumber, claimedNumber, hpr, hc, hneg]
            · simp [resPostings, effNumber, claimedNumber, hpr, hc]

theorem cct_postings_sum (postings : List PostingDraft) (td : Date)
    (rb : BalanceSheet) (inc : Option PostingDraft) (valid : List Posting)
    (bc : BalanceSheet) (pcc : List (Currency × Decimal)) (errs : List Error)
    (inc2 : Option PostingDraft) (valid2 : List Posting) (bc2 : BalanceSheet)
    (pcc2 : List (Currency × Decimal)) (errs2 : List Error)
    (h : cct_postings postings td rb inc valid bc pcc errs =
      some (.ok inc2 valid2 bc2 pcc2 errs2)) :
    (∀ c, (valid2.map (fun p => effNumber p c)).sum =
      (valid.map (fun p => effNumber p c)).sum +
        (lookupD pcc2 c - lookupD pcc c)) ∧
    ((pcc.map Prod.fst).Nodup → (pcc2.map Prod.fst).Nodup) := by
  induction postings generalizing inc valid bc pcc errs with
  | nil =>
    unfold cct_postings at h
    cases Option.some.inj h
    exact ⟨fun c => by ring, fun hn => hn⟩
  | cons posting rest ih =>
    unfold cct_postings at h
    cases hpf : posting_flow posting td rb bc pcc with
    | none =>
      rw [hpf] at h
      simp at h
    | some pfout =>
      obtain ⟨res, bc', pcc', errs'⟩ := pfout
      have hps := posting_flow_sum posting td rb bc pcc _ hpf
      simp only [hpf] at h
      split at h
      · simp at h
      · rename_i ps
        have hr := ih _ _ _ _ _ h
        refine ⟨fun c => ?_, fun hn => hr.2 (hps.2 hn)⟩
        have h1 := hr.1 c
        have h2 := hps.1 c
        simp only [List.map_append, List.sum_append] at h1
        simp only [resPostings] at h2
        rw [h1, h2]
        ring
      · have hr := ih _ _ _ _ _ h
        refine ⟨fun c => ?_, fun hn => hr.2 (hps.2 hn)⟩
        have h2 := hps.1 c
        simp only [resPostings, List.map_nil, List.sum_nil] at h2
        rw [hr.1 c]
        have hpc : lookupD pcc' c = lookupD pcc c := by linarith
        rw [hpc]
      · rename_i p
        have hr := ih _ _ _ _ _ h
        refine ⟨fun c => ?_, fun hn => hr.2 (hps.2 hn)⟩
        have h1 := hr.1 c
        have h2 := hps.1 c
        simp only [List.map_append, List.sum_append] at h1
        simp only [resPostings] at h2
        rw [h1, h2]
        ring
      · rename_i pd
        split at h
        · simp at h
        · have hr := ih _ _ _ _ _ h
          refine ⟨fun c => ?_, fun hn => hr.2 (hps.2 hn)⟩
          have h2 := hps.1 c
          simp only [resPostings, List.map_nil, List.sum_nil] at h2
          rw [hr.1 c]
          have hpc : lookupD pcc' c = lookupD pcc c := by linarith
          rw [hpc]

theorem infer_postings_sum (a : Account) (m : Meta) (s : Source)
    (nb : List (Currency × Decimal))
    (pending : List (Currency × List (Option UnitCost × Decimal)))
    (c : Currency) :
    ((infer_postings a m s nb pending).1.map (fun p => effNumber p c)).sum =
      -((nb.map (fun e => if e.1 = c then e.2 else 0)).sum) := by
  induction nb generalizing pending with
  | nil => simp [infer_postings]
  | cons e rest ih =>
    obtain ⟨cur, n⟩ := e
    simp only [infer_postings, List.map_cons, List.sum_cons]
    rw [ih]
    by_cases hc : cur = c
    · simp [effNumber, claimedNumber, hc, dNeg_eq]
      ring
    · simp [effNumber, claimedNumber, hc]

theorem complete_posting_sum (inc : Option PostingDraft)
    (nb : List (Currency × Decimal)) (td : Date) (tsrc : Source)
    (valid : List Posting) (bc : BalanceSheet) (valid2 : List Posting)
    (bc2 : BalanceSheet)
    (h : complete_posting inc nb td tsrc valid bc = some (.ok (valid2, bc2)))
    (c : Currency) :
    (valid2.map (fun p => effNumber p c)).sum =
      (valid.map (fun p => effNumber p c)).sum -
        (nb.map (fun e => if e.1 = c then e.2 else 0)).sum := by
  unfold complete_posting at h
  simp only [] at h
  split at h
  · rename_i pd
    split at h
    · cases Option.some.inj h
      simp only [List.map_append, List.sum_append, infer_postings_sum]
      ring
    · rename_i am cl ham hcl
      split at h
      · rename_i currency number
        split at h
        · simp at h
        · rename_i hz
          cases Option.some.inj h
          simp only [List.map_append, List.sum_append, List.map_cons,
            List.map_nil, List.sum_cons, List.sum_nil]
          by_cases hc : currency = c
          · simp only [effNumber, hc, if_pos]
            rw [dMul_eq, dDiv_eq, div_mul_cancel₀ _ hz, dNeg_eq]
            ring
          · simp only [effNumber]
            rw [if_neg hc, if_neg hc]
            simp
      · simp at h
    · simp at h
  · split at h
    · simp at h
    · rename_i hlen
      cases Option.some.inj h
      have hnb : nb = [] := List.length_eq_zero.mp (by omega)
      subst hnb
      simp

theorem cct_balanced (txn : TxnDraft) (rb : BalanceSheet)
    (tol : List (String × Decimal)) (vec : List Transaction)
    (bc : BalanceSheet) (errs : List Error)
    (h : check_complete_txn txn rb tol = some (some (vec, bc), errs)) :
    ∀ t ∈ vec, ∀ c, effSum t c = 0 ∨
      |effSum t c| < applicable_tolerance tol c := by
  unfold check_complete_txn at h
  cases hloop : cct_postings txn.postings txn.date rb none [] [] [] [] with
  | none =>
    rw [hloop] at h
    simp at h
  | some lr =>
    cases lr with
    | dropped errs0 =>
      simp only [hloop] at h
      simp at h
    | ok inc valid bc0 pcc errs0 =>
      simp only [hloop] at h
      cases hcp : complete_posting inc
          (pcc.filter (fun e => !(equal_within e.2 0 e.1 tol))) txn.date txn.src
          valid bc0 with
      | none =>
        rw [hcp] at h
        simp at h
      | some r =>
        cases r with
        | error e =>
          rw [hcp] at h
          simp at h
        | ok pair =>
          obtain ⟨valid2, bc2⟩ := pair
          rw [hcp] at h
          simp only [Option.some.injEq, Prod.mk.injEq] at h
          obtain ⟨⟨hvec, hbc⟩, herrs⟩ := h
          intro t ht c
          rw [← hvec] at ht
          simp only [List.mem_singleton] at ht
          subst ht
          have heff : effSum
              { date := txn.date, flag := txn.flag, payee := txn.payee,
                narration := txn.narration, links := txn.links,
                tags := txn.tags, meta := txn.meta, postings := valid2,
                src := txn.src } c =
              (valid2.map (fun p => effNumber p c)).sum := by
            simp [effSum, dSum_eq]
          rw [heff]
          have hsum0 := (cct_postings_sum _ _ _ _ _ _ _ _ _ _ _ _ _ hloop).1
          have hnodup := (cct_postings_sum _ _ _ _ _ _ _ _ _ _ _ _ _ hloop).2
            (by simp)
          have hcps := complete_posting_sum _ _ _ _ _ _ _ _ hcp
          have hv : (valid.map (fun p => effNumber p c)).sum = lookupD pcc c := by
            have hh := hsum0 c
            simpa [lookupD, alookup] using hh
          have htot : (valid2.map (fun p => effNumber p c)).sum =
              lookupD pcc c -
                ((pcc.filter (fun e => !(equal_within e.2 0 e.1 tol))).map
                  (fun e => if e.1 = c then e.2 else 0)).sum := by
            rw [hcps c, hv]
          cases halo : alookup pcc c with
          | none =>
            have hz : ∀ e ∈ pcc.filter
                (fun e => !(equal_within e.2 0 e.1 tol)), e.1 ≠ c := by
              intro e he hec
              have hepcc : e ∈ pcc := (List.mem_filter.mp he).1
              exact (alookup_eq_none pcc c).mp halo
                (List.mem_map.mpr ⟨e, hepcc, hec⟩)
            have hS : ((pcc.filter (fun e => !(equal_within e.2 0 e.1 tol))).map
                (fun e => if e.1 = c then e.2 else 0)).sum = 0 := by
              simpa using keyed_sum_zero _ c (fun x => x) hz
            left
            rw [htot, hS]
            simp [lookupD, halo]
          | some v =>
            have hmem : (c, v) ∈ pcc := alookup_mem _ _ _ halo
            have hlpc : lookupD pcc c = v := by simp [lookupD, halo]
            by_cases hin : (c, v) ∈ pcc.filter
                (fun e => !(equal_within e.2 0 e.1 tol))
            · have hnbkeys : ((pcc.filter
                  (fun e => !(equal_within e.2 0 e.1 tol))).map Prod.fst).Nodup :=
                hnodup.sublist ((List.filter_sublist _).map Prod.fst)
              have hS : ((pcc.filter
                  (fun e => !(equal_within e.2 0 e.1 tol))).map
                  (fun e => if e.1 = c then e.2 else 0)).sum = v := by
                simpa using keyed_sum_single _ c v (fun x => x) hnbkeys hin
              left
              rw [htot, hS, hlpc]
              simp
            · have hewt : equal_within v 0 c tol = true := by
                by_contra hne
                apply hin
                refine List.mem_filter.mpr ⟨hmem, ?_⟩
                simp only [Bool.not_eq_true] at hne
                simp [hne]
              have hz : ∀ e ∈ pcc.filter
                  (fun e => !(equal_within e.2 0 e.1 tol)), e.1 ≠ c := by
                intro e he hec
                have hepcc : e ∈ pcc := (List.mem_filter.mp he).1
                have hl : alookup pcc e.1 = some e.2 :=
                  mem_alookup_of_nodup pcc e.1 e.2 (by simpa using hepcc) hnodup
                rw [hec, halo] at hl
                have he2 : e = (c, v) := by
                  have hv2 : e.2 = v := (Option.some.inj hl).symm ▸ rfl
                  exact Prod.ext hec (Option.some.inj hl.symm)
                exact hin (he2 ▸ he)
              have hS : ((pcc.filter
                  (fun e => !(equal_within e.2 0 e.1 tol))).map
                  (fun e => if e.1 = c then e.2 else 0)).sum = 0 := by
                simpa using keyed_sum_zero _ c (fun x => x) hz
              have hfin : (valid2.map (fun p => effNumber p c)).sum = v := by
                rw [htot, hS, hlpc]
                ring
              rw [hfin]
              rcases (equal_within_iff v 0 c tol).mp hewt with h0 | hlt
              · left
                exact h0
              · right
                simpa using hlt

theorem replay_step_balanced (va : List (Account × AccountInfo))
    (tol : List (String × Decimal)) (st : ReplayState) (txn : TxnDraft)
    (st2 : ReplayState) (h : replay_step va tol st txn = some st2)
    (hInv : ∀ t ∈ st.valid_txns, t.flag ≠ .Balance → ∀ c, BalancedIn tol t c) :
    ∀ t ∈ st2.valid_txns, t.flag ≠ .Balance → ∀ c, BalancedIn tol t c := by
  unfold replay_step at h
  by_cases herr : txn.postings.filterMap (fun posting =>
      match check_posting posting txn.date va with
      | .error msg =>
        some ({ msg := msg, src := posting.src, level := .Error,
                etype := .Account } : Error)
      | .ok _ => none) ≠ []
  · rw [if_pos herr] at h
    cases Option.some.inj h
    exact hInv
  · rw [if_neg herr] at h
    cases hflag : txn.flag with
    | Balance =>
      simp only [hflag] at h
      cases hcb : check_balance txn st.running_balance tol
          (invalidate_pads txn.postings st.pad_from st.pad_to).1 st.valid_txns
          va with
      | none =>
        rw [hcb] at h
        simp at h
      | some out =>
        obtain ⟨outTxn, rb2, pf2, vt2, newErrs⟩ := out
        simp only [hcb] at h
        have hcbt := check_balance_txns txn st.running_balance tol
          (invalidate_pads txn.postings st.pad_from st.pad_to).1 st.valid_txns
          va _ hcb
        cases Option.some.inj h
        intro t ht hfl c
        cases outTxn with
        | none =>
          refine hcbt.2.2 tol hInv t ?_ hfl c
          simpa using ht
        | some t' =>
          rcases List.mem_append.mp ht with h1 | h1
          · exact hcbt.2.2 tol hInv t h1 hfl c
          · simp only [List.mem_singleton] at h1
            have hpair := hcbt.2.1 t' rfl
            rw [h1] at hfl
            exact absurd (hpair.2.trans hflag) hfl
    | Pending =>
      simp only [hflag] at h
      cases hcct : check_complete_txn txn st.running_balance tol with
      | none =>
        rw [hcct] at h
        simp at h
      | some res =>
        obtain ⟨result, newErrs⟩ := res
        simp only [hcct] at h
        cases result with
        | none =>
          cases Option.some.inj h
          exact hInv
        | some pair =>
          obtain ⟨vec, changes⟩ := pair
          cases Option.some.inj h
          intro t ht hfl c
          rcases List.mem_append.mp ht with h1 | h1
          · exact hInv t h1 hfl c
          · exact cct_balanced txn st.running_balance tol vec changes newErrs
              hcct t h1 c
    | Posted =>
      simp only [hflag] at h
      cases hcct : check_complete_txn txn st.running_balance tol with
      | none =>
        rw [hcct] at h
        simp at h
      | some res =>
        obtain ⟨result, newErrs⟩ := res
        simp only [hcct] at h
        cases result with
        | none =>
          cases Option.some.inj h
          exact hInv
        | some pair =>
          obtain ⟨vec, changes⟩ := pair
          cases Option.some.inj h
          intro t ht hfl c
          rcases List.mem_append.mp ht with h1 | h1
          · exact hInv t h1 hfl c
          · exact cct_balanced txn st.running_balance tol vec changes newErrs
              hcct t h1 c
    | Pad =>
      simp only [hflag] at h
      split at h
      · cases Option.some.inj h
        intro t ht hfl c
        rcases List.mem_append.mp ht with h1 | h1
        · exact hInv t h1 hfl c
        · simp only [List.mem_singleton] at h1
          subst h1
          left
          simp [effSum, dSum]
      · cases Option.some.inj h
        exact hInv

theorem replay_balanced (va : List (Account × AccountInfo))
    (tol : List (String × Decimal)) (txns : List TxnDraft)
    (st st2 : ReplayState) (h : replay va tol txns st = some st2)
    (hInv : ∀ t ∈ st.valid_txns, t.flag ≠ .Balance → ∀ c, BalancedIn tol t c) :
    ∀ t ∈ st2.valid_txns, t.flag ≠ .Balance → ∀ c, BalancedIn tol t c := by
  induction txns generalizing st with
  | nil =>
    unfold replay at h
    cases Option.some.inj h
    exact hInv
  | cons txn rest ih =>
    unfold replay at h
    cases hstep : replay_step va tol st txn with
    | none =>
      rw [hstep] at h
      simp at h
    | some mid =>
      rw [hstep] at h
      exact ih mid h (replay_step_balanced va tol st txn mid hstep hInv)

/-- C1 (counterexample to the claim as stated): in the checked ledger of
`c1CexDraft` there is a non-Balance transaction whose price-adjusted sum
in currency `FOO` -- counting the costed posting at its own number, as the
claim prescribes -- is `10`, while the applicable tolerance for `FOO` is
the default `0.006`; the claimed balance property fails for it. -/
theorem claimed_balance_counterexample :
    ∃ ledger errs, into_ledger c1CexDraft = some (ledger, errs) ∧
      ∃ t ∈ ledger.txns, t.flag ≠ TxnFlag.Balance ∧
        claimedSum t "FOO" = 10 ∧
        applicable_tolerance
            (extract_tolerance c1CexDraft.commodities c1CexDraft.options).1
            "FOO" = mkRat 6 1000 ∧
        ¬ (claimedSum t "FOO" = 0 ∨
            |claimedSum t "FOO"| <
              applicable_tolerance
                (extract_tolerance c1CexDraft.commodities c1CexDraft.options).1
                "FOO") := by
  have h10 : ¬ ((10 : Decimal) = 0 ∨ |(10 : Decimal)| < mkRat 6 1000) := by
    rintro (h0 | hlt)
    · norm_num at h0
    · rw [abs_of_nonneg (by norm_num : (0 : ℚ) ≤ 10), Rat.mkRat_eq_div] at hlt
      norm_num at hlt
  refine ⟨c1CexPair.1, c1CexPair.2, rfl, ?_⟩
  have hkey : ∃ t ∈ c1CexPair.1.txns, t.flag ≠ TxnFlag.Balance ∧
      claimedSum t "FOO" = 10 ∧
      applicable_tolerance
          (extract_tolerance c1CexDraft.commodities c1CexDraft.options).1
          "FOO" = mkRat 6 1000 := by decide
  obtain ⟨t, ht, h1, h2, h3⟩ := hkey
  exact ⟨t, ht, h1, h2, h3, by rw [h2, h3]; exact h10⟩

/-- C1 (amended): for every transaction of the checked ledger whose flag
is not `Balance` and every currency, the sum of the transaction's postings
as the checker accounts for them -- a posting carrying a unit cost counted
as `cost.amount.number * posting.number` in the cost currency, an uncosted
posting at its price-adjusted amount (`Unit` price times the number,
`Total` price with the sign of the number, else the raw number) -- is
exactly zero or differs from zero by strictly less than the applicable
tolerance for that currency. -/
theorem non_balance_txns_balanced (draft : LedgerDraft) (ledger : Ledger)
    (errs : List Error) (h : into_ledger draft = some (ledger, errs)) :
    ∀ t ∈ ledger.txns, t.flag ≠ TxnFlag.Balance → ∀ c,
      effSum t c = 0 ∨
        |effSum t c| < applicable_tolerance
          (extract_tolerance draft.commodities draft.options).1 c := by
  simp only [into_ledger] at h
  cases hrep : replay (check_accounts draft.accounts).1
      (extract_tolerance draft.commodities draft.options).1
      (List.insertionSort (draft_le (optionBalanceAtDayEnd draft.options))
        draft.txns)
      { errors := (check_accounts draft.accounts).2 ++
          (extract_tolerance draft.commodities draft.options).2,
        valid_txns := [], running_balance := [], pad_from := [],
        pad_to := [] } with
  | none =>
    rw [hrep] at h
    simp at h
  | some stf =>
    rw [hrep] at h
    simp only [Option.some.injEq, Prod.mk.injEq] at h
    have hbal := replay_balanced _ _ _ _ _ hrep (by simp)
    have hledger : ledger.txns = stf.valid_txns := by rw [← h.1]
    rw [hledger]
    exact hbal

theorem non_balance_txns_balanced_witness :
    into_ledger c1CexDraft = some c1CexPair ∧
      ∀ t ∈ c1CexPair.1.txns, t.flag ≠ TxnFlag.Balance → ∀ c,
        effSum t c = 0 ∨
          |effSum t c| < applicable_tolerance
            (extract_tolerance c1CexDraft.commodities c1CexDraft.options).1 c :=
  ⟨rfl, non_balance_txns_balanced c1CexDraft c1CexPair.1 c1CexPair.2 rfl⟩
